import Mathlib

/-!
# Checkerboard localisation (piccante, `computer_vision/find_checker_board.hpp`)

A shallow embedding of the distance estimators, the synthetic pattern generator,
the isolation filter, the rotation-search loop, the white-point estimators and the
orchestrator `findCheckerBoard`, and of the left/right consistency check of
`computer_vision/stereo.hpp`.

Conventions of the embedding.

* A `float` value is an element of a linearly ordered field `F`, a finite
  single-precision number being itself an element of `F`; the comparisons of the source
  are the order of `F`. `FLT_MAX` is the largest finite single-precision value; a value
  of `F` that is not below it plays the part of `+inf`, from which no comparison of the
  source tells it apart. There is no NaN.
* `Eigen::Vector2f` is `F × F`. Eigen is not part of the repository: the distance
  `(a - b).norm()` is the parameter `norm` applied to the exact difference `a - b`. The
  rounded subtraction and the rounded norm are both functions of the exact difference,
  so `norm` stands for their composition, with its rounding and its overflow. A theorem
  holds for every `norm`, or assumes of it only what its statement says: the contract
  `IsExactOnIntegers`, or a tolerance against a stated reference. The exact Euclidean
  length of the specification is a separate function, `IsEuclidean`.
* The conversion `float(x)` of an `int` rounds to single precision (`roundToBinary32`).
  The sums and the quotient computed by the white-point estimators round their exact
  result by `rnd`, a parameter of which nothing is assumed. The quotient of the scale
  normalizer is handed to the transform, a parameter, as the exact quotient.
* `std::vector` is `List`; index loops `for(j = 0; j < n; j++) ... v[j]` run over
  `List.enum`, so that the test `j == i` is a test on indices, as in the source.
* `int` is `Int`, and a loop `for(int v = lo; v < hi; v++)` runs over `intRange lo hi`.
  A value of type `int` that the source goes on to use after it may have left the range
  of the type is reduced by `wrapInt` (the coordinates of the generated points, the
  difference and the absolute value of the consistency check); the arithmetic on sizes,
  indices and pixel addresses is exact.
* Accesses whose bounds are the subject of a statement (pixel writes of the pattern
  generator and of the consistency check, reads of the model vector by the white-point
  estimators and by `estimateLengthOfCheckers`) are checked: the embedded function
  returns `none` as soon as one of them is out of range.
* Code that is not part of the sources (detector, descriptor, ICP, optimiser, disparity
  filter) enters as a parameter of the function that calls it.
-/

namespace pic

/-- The type `Eigen::Vector2f`. -/
abbrev Vector2f (F : Type) := F × F

section Distances

variable {F : Type} [LinearOrderedField F]

/-- The constant `FLT_MAX` of `<cfloat>`: `(2^24 - 1) * 2^104`. -/
def FLT_MAX : F := 340282346638528859811704183484516925440

/-- Body of the inner `for(j ...)` loop shared by `getMinDistance` and
`estimateCheckerBoardSize` (lines 51-62 and 89-101): skip `j == i`, otherwise lower
the running value to `dist` when `dist` is strictly smaller. -/
def scanStep (norm : Vector2f F → F) (i : Nat) (p_i : Vector2f F)
    (acc : F) (q : Nat × Vector2f F) : F :=
  if q.1 = i then acc
  else
    let delta_ij := p_i - q.2
    let dist := norm delta_ij
    if dist < acc then dist else acc

/-- The inner `for(j ...)` loop started from the running value `init`. -/
def scanOthers (norm : Vector2f F → F) (points : List (Vector2f F)) (i : Nat)
    (p_i : Vector2f F) (init : F) : F :=
  points.enum.foldl (scanStep norm i p_i) init

/-- Source `getMinDistance` (lines 44-66). -/
def getMinDistance (norm : Vector2f F → F) (points : List (Vector2f F)) : F :=
  points.enum.foldl (fun ret q => scanOthers norm points q.1 q.2 ret) FLT_MAX

/-- The vector `m_d` built by the outer loop of `estimateCheckerBoardSize`
(lines 83-106): one entry per point whose closest distance is below `FLT_MAX`. -/
def closestDistances (norm : Vector2f F → F) (points : List (Vector2f F)) : List F :=
  points.enum.foldl
    (fun m_d q =>
      let closest := scanOthers norm points q.1 q.2 FLT_MAX
      if closest < FLT_MAX then m_d ++ [closest] else m_d)
    []

/-- Source `estimateCheckerBoardSize` (lines 73-115). -/
def estimateCheckerBoardSize (norm : Vector2f F → F) (points : List (Vector2f F)) : F :=
  if points.length < 2 then -1
  else
    let m_d := closestDistances norm points
    if !m_d.isEmpty then
      let sorted := m_d.insertionSort (· ≤ ·)
      sorted.getD (sorted.length / 2) 0
    else 0

/-- Specification side: the distances from the point of index `i` to every other
point of the set (every index different from `i`). -/
def distancesToOthers (norm : Vector2f F → F) (points : List (Vector2f F)) (i : Nat)
    (p_i : Vector2f F) : List F :=
  (points.enum.filter (fun q => decide (q.1 ≠ i))).map (fun q => norm (p_i - q.2))

/-- Specification side: the nearest-neighbour distance of the point of index `i`,
the least distance to another point (`0` when there is no other point). -/
def nearestNeighbourDistance (norm : Vector2f F → F) (points : List (Vector2f F))
    (i : Nat) (p_i : Vector2f F) : F :=
  match distancesToOthers norm points i p_i with
  | [] => 0
  | d :: ds => ds.foldl min d

/-- Specification side: the `n` nearest-neighbour distances of a set of `n` points. -/
def nearestNeighbourDistances (norm : Vector2f F → F) (points : List (Vector2f F)) :
    List F :=
  points.enum.map (fun q => nearestNeighbourDistance norm points q.1 q.2)

/-- Specification side: the median of a list, the value at index `floor(n/2)` of the
list sorted ascending. -/
def median (l : List F) : F :=
  (l.insertionSort (· ≤ ·)).getD (l.length / 2) 0

/-- Specification side: the distances of all ordered pairs of points with different
indices, in the order the double loop of `getMinDistance` visits them. -/
def pairwiseDistances (norm : Vector2f F → F) (points : List (Vector2f F)) : List F :=
  points.enum.flatMap (fun q => distancesToOthers norm points q.1 q.2)

/-- Modelled from the spec: `ICP2DTransform::applyC` for the pure-scale transform
(theta = 0, translation = 0, scale = k) is not in the sources; by section 3 of the
specification `apply(p) = s * Rotate(theta) * p + (tx, ty)`, which for this transform
multiplies both coordinates of every point by `k`. -/
def scalePoints (k : F) (points : List (Vector2f F)) : List (Vector2f F) :=
  points.map (fun p => (k * p.1, k * p.2))

/-- Specification side: the lattice position of row `r` and column `c` of a regular
grid with origin `o` and the two step vectors `u` (along a row) and `v` (along a column). -/
def latticePoint (o u v : Vector2f F) (r c : Nat) : Vector2f F :=
  (o.1 + (c : F) * u.1 + (r : F) * v.1, o.2 + (c : F) * u.2 + (r : F) * v.2)

/-- Specification side: the lattice positions of a regular rectangular grid of `rows`
rows and `cols` columns, in row-major order. -/
def gridPoints (o u v : Vector2f F) (cols rows : Nat) : List (Vector2f F) :=
  (List.range rows).flatMap (fun r => (List.range cols).map (fun c => latticePoint o u v r c))

/-- The largest value of the type `int` (32 bits). -/
def INT_MAX : Int := 2147483647

/-- The smallest value of the type `int` (32 bits). -/
def INT_MIN : Int := -2147483648

/-- Specification side: `len` is the exact Euclidean length, the non-negative square root
of the sum of the squared coordinates. This is the length in which the specification
measures spacings and jitter; the distance computed by the code is the parameter `norm`,
which rounds and overflows and is not assumed to be exact. -/
def IsEuclidean (len : Vector2f F → F) : Prop :=
  ∀ v : Vector2f F, 0 ≤ len v ∧ len v * len v = v.1 * v.1 + v.2 * v.2

/-- Contract of the computed distance on the vectors whose two coordinates are integers
of magnitude at most 2^24, all of which single precision represents exactly: the norm of
a vector along an axis is the magnitude of its coordinate, and the norm of any such
vector is at least the magnitude of either coordinate. Nothing is assumed on other
vectors. -/
def IsExactOnIntegers (norm : Vector2f F → F) : Prop :=
  ∀ a b : Int, |a| ≤ 16777216 → |b| ≤ 16777216 →
    norm ((a : F), 0) = ((|a| : Int) : F) ∧ norm (0, (b : F)) = ((|b| : Int) : F) ∧
    ((|a| : Int) : F) ≤ norm ((a : F), (b : F)) ∧ ((|b| : Int) : F) ≤ norm ((a : F), (b : F))

/-- The isolation test of `findCheckerBoard` (lines 221-232): `bFlag` after the inner
loop over the enumerated candidates, which leaves at the first `j != i` whose distance
to `p_i` is below `checker_size`. -/
def isolationFlag (norm : Vector2f F → F) (checker_size : F) (i : Nat) (p_i : Vector2f F) :
    List (Nat × Vector2f F) → Bool
  | [] => true
  | q :: rest =>
    if q.1 ≠ i then
      let delta_ij := p_i - q.2
      let dist := norm delta_ij
      if dist < checker_size then false
      else isolationFlag norm checker_size i p_i rest
    else isolationFlag norm checker_size i p_i rest

/-- The isolation filter of `findCheckerBoard` (lines 216-237): the vector `cfi_valid`
built from `cfi_out` and `checker_size`. -/
def isolationFilter (norm : Vector2f F → F) (checker_size : F)
    (cfi_out : List (Vector2f F)) : List (Vector2f F) :=
  cfi_out.enum.foldl
    (fun cfi_valid q =>
      if isolationFlag norm checker_size q.1 q.2 cfi_out.enum then cfi_valid ++ [q.2]
      else cfi_valid)
    []

/-- Specification side: the candidate of index `i` is isolated when every other
candidate (index `j != i`) lies at distance at least `checker_size` from it. -/
def IsIsolated (norm : Vector2f F → F) (checker_size : F) (cfi_out : List (Vector2f F))
    (i : Nat) (p_i : Vector2f F) : Prop :=
  ∀ q ∈ cfi_out.enum, q.1 ≠ i → checker_size ≤ norm (p_i - q.2)

instance (norm : Vector2f F → F) (checker_size : F) (cfi_out : List (Vector2f F))
    (i : Nat) (p_i : Vector2f F) : Decidable (IsIsolated norm checker_size cfi_out i p_i) := by
  unfold IsIsolated; infer_instance

/-- Outcome of one call `opt.run(start, 3, 1e-9f, 1000, tmp)` of the rotation search:
the first three entries of `tmp` and the field `opt.output_error` after the call. The
optimiser `NelderMeadOptICP2D` is not part of the sources. -/
structure SeedRun (F : Type) where
  tmp : F × F × F
  output_error : F

/-- State of the rotation-search loop (lines 274-288): the buffer `x`, which is `none`
while nothing has been copied into the freshly allocated array, and `prev_err`. -/
structure SearchState (F : Type) where
  x : Option (F × F × F)
  prev_err : F

/-- The constant `nSample` (line 276). -/
def nSample : Nat := 72

/-- Body of the rotation-search loop (lines 280-287) for the seed of index `i`, whose
run has the outcome `r`. -/
def searchStep (st : SearchState F) (r : SeedRun F) : SearchState F :=
  if r.output_error < st.prev_err then
    { x := some r.tmp, prev_err := r.output_error }
  else st

/-- The rotation-search loop of `findCheckerBoard` (lines 274-288), given the outcome
`run i` of the optimiser for each seed index `i`. -/
def rotationSearch (run : Nat → SeedRun F) : SearchState F :=
  (List.range nSample).foldl (fun st i => searchStep st (run i))
    { x := none, prev_err := FLT_MAX }

end Distances

section Pattern

variable {F : Type} [LinearOrderedField F]

/-- The external type `Image` (not part of the sources), as far as the embedded functions
use it: the fields `width`, `height`, `channels` and the samples, `data x y c` being
the value `(*img)(x, y)[c]`. -/
structure Image (F : Type) where
  width : Int
  height : Int
  channels : Int
  data : Int → Int → Int → F

/-- The values taken by the variable of `for(int v = lo; v < hi; v++)`. -/
def intRange (lo hi : Int) : List Int :=
  (List.range (hi - lo).toNat).map (fun (k : Nat) => lo + (k : Int))

/-- The value held by a variable of type `int` (32 bits, two's complement) to which an
expression of exact value `z` is assigned: `z` reduced modulo 2^32 to the range
`INT_MIN .. INT_MAX`. It is `z` itself when `z` lies in that range. -/
def wrapInt (z : Int) : Int :=
  (z + 2147483648) % 4294967296 - 2147483648

/-- The number of low-order bits of `n` that do not fit into the 24-bit significand of a
single-precision number: `0` below 2^24, and one more for every further doubling. The
first argument bounds the number of steps. -/
def excessBits : Nat → Nat → Nat
  | 0, _ => 0
  | fuel + 1, n => if n < 16777216 then 0 else excessBits fuel (n / 2) + 1

/-- The single-precision number nearest to the integer `z`, ties going to the even
significand (the rounding of IEEE 754 binary32, for magnitudes below 2^128). The result
is again an integer. -/
def roundToBinary32 (z : Int) : Int :=
  let n := z.natAbs
  let e := excessBits n n
  let q := n / 2 ^ e
  let r := n % 2 ^ e
  let m :=
    if 2 * r < 2 ^ e then q
    else if 2 * r = 2 ^ e then (if q % 2 = 0 then q else q + 1)
    else q + 1
  if z < 0 then -((m * 2 ^ e : Nat) : Int) else ((m * 2 ^ e : Nat) : Int)

/-- The conversion `float(x)` of a variable `int x` whose initialiser has the exact
value `z` (lines 133-134 and 138-139): the variable holds `wrapInt z`, and the conversion
rounds it to single precision. -/
def intToFloat (z : Int) : F :=
  ((roundToBinary32 (wrapInt z) : Int) : F)

/-- The write `(*img)(x, y)[c] = v`, checked: it fails (`none`) when the pixel or the
channel lies outside the image. -/
def Image.write (img : Image F) (x y c : Int) (v : F) : Option (Image F) :=
  if 0 ≤ x ∧ x < img.width ∧ 0 ≤ y ∧ y < img.height ∧ 0 ≤ c ∧ c < img.channels then
    some { img with data := fun a b d => if a = x ∧ b = y ∧ d = c then v else img.data a b d }
  else none

/-- The two loops that paint one cell dark (lines 155-160). -/
def fillCell (img : Image F) (x y checkers_size : Int) : Option (Image F) :=
  (intRange y (y + checkers_size)).foldlM
    (fun img yy =>
      (intRange x (x + checkers_size)).foldlM (fun img xx => img.write xx yy 0 0) img)
    img

/-- The flag `bDraw` of `getCheckerBoardModel` (lines 141-152) for row `i`, column `j`. -/
def bDraw (checkers_x checkers_y i j : Int) : Bool :=
  let b0 := false
  let b1 :=
    if j < checkers_x then (if j % 2 = 0 then (if i % 2 = 0 then true else b0) else b0)
    else b0
  let b2 :=
    if i < checkers_y then (if j % 2 = 1 then (if i % 2 = 1 then true else b1) else b1)
    else b1
  b2

/-- Source `getCheckerBoardModel` (lines 125-168): the returned image and the final
contents of the vector `out`; `none` when a pixel write falls outside the image. The
coordinates of a point are the `int` variables `x`, `y` converted by `float(.)`. The
products that size the image and address its pixels are exact: when one of them leaves
the range of `int`, so does the width or the height of line 127, which is larger in
magnitude, and there is no image to write to. -/
def getCheckerBoardModel (checkers_x checkers_y checkers_size : Int)
    (out : List (Vector2f F)) : Option (Image F × List (Vector2f F)) :=
  let ret : Image F :=
    { width := (checkers_x + 1) * checkers_size, height := (checkers_y + 1) * checkers_size,
      channels := 1, data := fun _ _ _ => 1 }
  (intRange 1 (checkers_y + 1)).foldlM
    (fun st i =>
      let y := i * checkers_size
      (intRange 1 (checkers_x + 1)).foldlM
        (fun st j =>
          let x := j * checkers_size
          let point : Vector2f F := (intToFloat x, intToFloat y)
          if bDraw checkers_x checkers_y i j then
            (fillCell st.1 x y checkers_size).map (fun img => (img, st.2 ++ [point]))
          else some (st.1, st.2 ++ [point]))
        st)
    (ret, out)

/-- Specification side: the model points of the grid in row-major order, the point of
row `i` and column `j` (both counted from 1) being `(j * checkers_size, i * checkers_size)`. -/
def modelPoints (checkers_x checkers_y checkers_size : Int) : List (Vector2f F) :=
  (intRange 1 (checkers_y + 1)).flatMap (fun i =>
    (intRange 1 (checkers_x + 1)).map (fun j =>
      (((j * checkers_size : Int) : F), ((i * checkers_size : Int) : F))))

/-- The points pushed by the two loops of `getCheckerBoardModel`, in the order of the
pushes: for row `i` and column `j` the pair of `float(j * checkers_size)` and
`float(i * checkers_size)`. -/
def generatedPoints (checkers_x checkers_y checkers_size : Int) : List (Vector2f F) :=
  (intRange 1 (checkers_y + 1)).flatMap (fun i =>
    (intRange 1 (checkers_x + 1)).map (fun j =>
      ((intToFloat (j * checkers_size) : F), (intToFloat (i * checkers_size) : F))))

/-- Relation between an image `img0` and the image `img` obtained from it by writing
`0` into channel 0 of exactly the pixels of the set `S`: same dimensions, the pixels of
`S` are `0` in channel 0 and every other sample is unchanged. -/
def Repaint (img0 img : Image F) (S : Int → Int → Prop) : Prop :=
  img.width = img0.width ∧ img.height = img0.height ∧ img.channels = img0.channels ∧
    ∀ a b c, (c = 0 ∧ S a b → img.data a b c = 0) ∧
      (¬(c = 0 ∧ S a b) → img.data a b c = img0.data a b c)

/-- Loop invariant of `getCheckerBoardModel`, image part: the pixels painted dark once
the rows before `iMax` and, in row `iMax`, the columns before `jMax` have been handled. -/
def PaintedUpTo (checkers_x checkers_y checkers_size iMax jMax : Int) (a b : Int) : Prop :=
  ∃ i j, 1 ≤ i ∧ 1 ≤ j ∧ j ≤ checkers_x ∧ (i < iMax ∨ (i = iMax ∧ j < jMax)) ∧
    bDraw checkers_x checkers_y i j = true ∧
    j * checkers_size ≤ a ∧ a < j * checkers_size + checkers_size ∧
    i * checkers_size ≤ b ∧ b < i * checkers_size + checkers_size

/-- Loop invariant of `getCheckerBoardModel`, point part: the points pushed once the
rows before `iMax` and, in row `iMax`, the columns before `jMax` have been handled. -/
def pointsUpTo (checkers_x checkers_size iMax jMax : Int) : List (Vector2f F) :=
  (intRange 1 iMax).flatMap (fun i =>
    (intRange 1 (checkers_x + 1)).map (fun j =>
      ((intToFloat (j * checkers_size) : F), (intToFloat (i * checkers_size) : F)))) ++
  (intRange 1 jMax).map (fun j =>
    ((intToFloat (j * checkers_size) : F), (intToFloat (iMax * checkers_size) : F)))

end Pattern

section WhitePoint

variable {F : Type} [LinearOrderedField F] [FloorRing F]

/-- The conversion `int x = pMid[0]` of a `float` to `int`: truncation towards zero. -/
def truncToInt (a : F) : Int :=
  if 0 ≤ a then ⌊a⌋ else ⌈a⌉

/-- The read `corners_model[ind]`, checked: `none` when `ind` is outside the vector. -/
def readModel (corners_model : List (Vector2f F)) (ind : Int) : Option (Vector2f F) :=
  if 0 ≤ ind then corners_model[ind.toNat]? else none

end WhitePoint

section Length

variable {F : Type} [LinearOrderedField F]

/-- Body of the loop of `estimateLengthOfCheckers` (lines 336-342); the state is the pair
`(ret, closest)`. -/
def lengthStep (norm : Vector2f F → F) (p_0 : Vector2f F) (st : F × Int)
    (q : Nat × Vector2f F) : F × Int :=
  let delta_ij := p_0 - q.2
  let dist := norm delta_ij
  if dist < st.1 then (dist, (q.1 : Int)) else st

/-- Source `estimateLengthOfCheckers` (lines 325-349): the returned value and the final
contents of the output parameters `p0`, `p1`; `none` when a read of `corners_model`
falls outside the vector. -/
def estimateLengthOfCheckers (norm : Vector2f F → F) (corners_model : List (Vector2f F))
    (p0 p1 : Vector2f F) : Option (F × Vector2f F × Vector2f F) :=
  if corners_model.isEmpty then some (-1, p0, p1)
  else
    (readModel corners_model 0).bind fun p_0 =>
      let st := (corners_model.enum.drop 1).foldl (lengthStep norm p_0) (FLT_MAX, (-1 : Int))
      let ret := st.1
      let closest := st.2
      (readModel corners_model closest).map fun p_c => (ret, p_0, p_c)

end Length

section WhitePointColor

variable {F : Type} [LinearOrderedField F] [FloorRing F]

end WhitePointColor

section Stereo

variable {F : Type} [LinearOrderedField F] [FloorRing F]

/-- The image after the write `(*img)(x, y)[c] = v`. -/
def Image.set (img : Image F) (x y c : Int) (v : F) : Image F :=
  { img with data := fun a b d => if a = x ∧ b = y ∧ d = c then v else img.data a b d }

/-- Body of the loops of `checkDisparity` (stereo.hpp, lines 47-59) for the pixel of row
`i` and column `j`; the state is the pair of the two maps. The difference `d_L - d_R`
and its absolute value are values of type `int`, each reduced by `wrapInt`. The four
writes are checked: `none` when the pixel or the channel lies outside a map. -/
def checkPixel (threshold : Int) (st : Image F × Image F) (i j : Int) :
    Option (Image F × Image F) :=
  let d_L := truncToInt (st.1.data j i 0)
  let d_R := truncToInt (st.2.data j i 0)
  if wrapInt |wrapInt (d_L - d_R)| > threshold then
    (st.1.write j i 0 0).bind fun l0 =>
      (l0.write j i 1 (-1)).bind fun l1 =>
        (st.2.write j i 0 0).bind fun r0 =>
          (r0.write j i 1 (-1)).map fun r1 => (l1, r1)
  else some st

/-- Source `checkDisparity` (stereo.hpp, lines 41-62): the two maps after the call, `none`
when a write falls outside a map. The loop bounds `disp_left->height` and
`disp_left->width` are not changed by the writes. -/
def checkDisparity (disp_left disp_right : Image F) (threshold : Int) :
    Option (Image F × Image F) :=
  (intRange 0 disp_left.height).foldlM
    (fun st i =>
      (intRange 0 disp_left.width).foldlM (fun st j => checkPixel threshold st i j) st)
    (disp_left, disp_right)

/-- The two calls of `checkDisparity` made by `estimateStereo` (stereo.hpp, lines 95-96):
the maps `(disp_left, disp_right)` after both. -/
def crossCheck (disp_left disp_right : Image F) (threshold : Int) :
    Option (Image F × Image F) :=
  (checkDisparity disp_left disp_right threshold).bind fun first =>
    (checkDisparity first.2 first.1 threshold).map fun second => (second.2, second.1)

/-- Source `estimateStereo` (stereo.hpp, lines 73-97). The filter `FilterDisparity` is not
part of the sources: `ProcessP a b out` is the map returned by
`fd.ProcessP(Double(a, b), out)`. The outer `none` is a write outside a map; the inner
value is `none` when the function returns at once because a pointer is `NULL`, and
otherwise the two disparity maps. -/
def estimateStereo (ProcessP : Image F → Image F → Image F → Image F)
    (img_left img_right : Option (Image F)) (max_disparity disparity_cross_check : Int)
    (disp_left disp_right : Option (Image F)) : Option (Option (Image F × Image F)) :=
  match img_left, img_right, disp_left, disp_right with
  | some il, some ir, some dl, some dr =>
    let _max_disparity := if max_disparity < 0 then min il.width ir.width / 2 else max_disparity
    let disparity_cross_check := if disparity_cross_check < 0 then 16 else disparity_cross_check
    let disp_left := ProcessP il ir dl
    let disp_right := ProcessP ir il dr
    (crossCheck disp_left disp_right disparity_cross_check).map some
  | _, _, _, _ => some none

/-- Specification side: the pixel `(x, y)` fails the left/right consistency check as the
machine evaluates it, the difference of the two truncated disparities and its absolute
value being taken in 32-bit `int` arithmetic. -/
def Mismatch (L R : Image F) (threshold x y : Int) : Prop :=
  wrapInt |wrapInt (truncToInt (L.data x y 0) - truncToInt (R.data x y 0))| > threshold

/-- Specification side: the truncated disparity of every pixel inside the map is a value
of the type `int`. -/
def DisparitiesInInt (L : Image F) : Prop :=
  ∀ x y, 0 ≤ x → x < L.width → 0 ≤ y → y < L.height →
    INT_MIN ≤ truncToInt (L.data x y 0) ∧ truncToInt (L.data x y 0) ≤ INT_MAX

/-- Specification side: the sample of channel `c` of a pixel set to `(0, -1)`, `v` being
its former value. -/
def invalidated (v : F) (c : Int) : F :=
  if c = 0 then 0 else if c = 1 then -1 else v

/-- Loop invariant of `checkDisparity`: the pixels handled before the pixel of row `i`
and column `j` is reached, `W` being the width of the map. -/
def Visited (W i j x y : Int) : Prop :=
  0 ≤ x ∧ x < W ∧ 0 ≤ y ∧ (y < i ∨ (y = i ∧ x < j))

/-- Loop invariant of `checkDisparity` on the pair of maps when the pixel of row `i` and
column `j` is reached. -/
def CheckInv (L R : Image F) (threshold i j : Int) (st : Image F × Image F) : Prop :=
  (st.1.width = L.width ∧ st.1.height = L.height ∧ st.1.channels = L.channels) ∧
  (st.2.width = R.width ∧ st.2.height = R.height ∧ st.2.channels = R.channels) ∧
  ∀ x y c,
    (Visited L.width i j x y ∧ Mismatch L R threshold x y →
      st.1.data x y c = invalidated (L.data x y c) c ∧
        st.2.data x y c = invalidated (R.data x y c) c) ∧
    (¬(Visited L.width i j x y ∧ Mismatch L R threshold x y) →
      st.1.data x y c = L.data x y c ∧ st.2.data x y c = R.data x y c)

end Stereo

section StereoTest

/-- A 2 x 1 two-channel test map with the disparities 10 and 3. -/
def leftTestMap : Image ℚ :=
  { width := 2, height := 1, channels := 2,
    data := fun x _ c => if c = 0 then (if x = 0 then 10 else 3) else 1 }

/-- A 2 x 1 two-channel test map with the disparities 1 and 1. -/
def rightTestMap : Image ℚ :=
  { width := 2, height := 1, channels := 2, data := fun _ _ _ => 1 }

/-- A 1 x 1 two-channel test map with the disparity 2147483520 = 2^31 - 128, the largest
single-precision number below 2^31. -/
def farLeftMap : Image ℚ :=
  { width := 1, height := 1, channels := 2,
    data := fun _ _ c => if c = 0 then 2147483520 else 1 }

/-- A 1 x 1 two-channel test map with the disparity -2147483520. -/
def farRightMap : Image ℚ :=
  { width := 1, height := 1, channels := 2,
    data := fun _ _ c => if c = 0 then -2147483520 else 1 }

end StereoTest

section Orchestrator

variable {F : Type} [LinearOrderedField F]

/-- The collaborators of `findCheckerBoard` that are not part of the sources, each as the
function of its inputs that the orchestrator relies on; `D` is the type of a descriptor
array. -/
structure Collaborators (F D : Type) where
  /-- The call `FilterLuminance::Execute(img, NULL, LT_CIE_LUMINANCE)`. -/
  luminance : Option (Image F) → Option (Image F)
  /-- The call `HarrisCornerDetector(2.5f, 5).execute(L, &corners_from_img)`: the corners
  found. -/
  harris : Option (Image F) → List (Vector2f F)
  /-- The call
  `GeneralCornerDetector::removeClosestCorners(&corners_from_img, &cfi_out, 16.0f, 100)`:
  the contents of `cfi_out`. -/
  removeClosestCorners : List (Vector2f F) → List (Vector2f F)
  /-- The call `ORBDescriptor::getAll(img, points, descs)`: the descriptor array. -/
  getAll : Option (Image F) → List (Vector2f F) → D
  /-- The call
  `iterativeClosestPoints2D(corners_model, cfi_valid, descs_model, descs_cfi_valid, ...)`:
  the contents of `corners_model` after it. -/
  iterativeClosestPoints2D : List (Vector2f F) → List (Vector2f F) → D → D → List (Vector2f F)
  /-- The call `opt.run(start, 3, 1e-9f, 1000, tmp)` for the seed of index `i`, the
  optimiser being built on `(corners_model, cfi_valid)`. -/
  run3 : List (Vector2f F) → List (Vector2f F) → Nat → SeedRun F
  /-- The call `opt.run(start, 4, 1e-12f, 1000, tmp)` from the start
  `(x[0], x[1], x[2], 1)`: the four entries of `tmp`. -/
  run4 : List (Vector2f F) → List (Vector2f F) → F × F × F → F × F × F × F
  /-- The call `ICP2DTransform(tmp[0], tmp[1], tmp[2], tmp[3]).applyC(corners_model)`. -/
  applyC : F × F × F × F → List (Vector2f F) → List (Vector2f F)
  /-- The call `t_init.applyC(corners_model)` of the scale normalizer (lines 258-262), as a
  function of the exact quotient `checker_size / min_dist` and of the model: the rounding
  of the quotient to the field `t_init.scale` is part of it. -/
  applyScale : F → List (Vector2f F) → List (Vector2f F)

/-- How a run of `findCheckerBoard` ends, with the contents of the caller's vector
`corners_model` at that point: `fault` when the run reaches undefined behaviour (a use
of a `NULL` image, a pixel write outside the pattern image, a read of the unwritten
buffer `x`), `done` when it returns. -/
inductive Outcome (F : Type) where
  | fault (corners_model : List (Vector2f F))
  | done (corners_model : List (Vector2f F))

/-- Lines 264-306 of `findCheckerBoard`: ICP, the rotation search and the final
refinement, started on the scaled model. -/
def registration {D : Type} (env : Collaborators F D)
    (corners_model cfi_valid : List (Vector2f F)) (descs_model descs_cfi_valid : D) :
    Outcome F :=
  let corners_model :=
    env.iterativeClosestPoints2D corners_model cfi_valid descs_model descs_cfi_valid
  match (rotationSearch (env.run3 corners_model cfi_valid)).x with
  | none => Outcome.fault corners_model
  | some x =>
    let tmp := env.run4 corners_model cfi_valid x
    Outcome.done (env.applyC tmp corners_model)

/-- The vector `cfi_valid` of `findCheckerBoard` (lines 181-237) for a non-null image. -/
def filteredCorners {D : Type} (env : Collaborators F D) (norm : Vector2f F → F)
    (img : Option (Image F)) : List (Vector2f F) :=
  let L := env.luminance img
  let corners_from_img := env.harris L
  let cfi_out := env.removeClosestCorners corners_from_img
  let checker_size := estimateCheckerBoardSize norm corners_from_img
  isolationFilter norm checker_size cfi_out

/-- Source `findCheckerBoard` (lines 177-316). The white-balanced image `img_wb` only
serves the debug overlay and is left out, except for the first use of `img`
(`img->getMeanVal`, line 193). -/
def findCheckerBoard {D : Type} (env : Collaborators F D) (norm : Vector2f F → F)
    (img : Option (Image F)) (_corners_model : List (Vector2f F))
    (checkerBoardSizeX checkerBoardSizeY : Int) : Outcome F :=
  let corners_model : List (Vector2f F) := []
  let L := env.luminance img
  match img with
  | none => Outcome.fault corners_model
  | some _ =>
    let cfi_valid := filteredCorners env norm img
    let checker_size := estimateCheckerBoardSize norm cfi_valid
    let checkers_size : Int := 32
    match getCheckerBoardModel checkerBoardSizeX checkerBoardSizeY checkers_size
        corners_model with
    | none => Outcome.fault corners_model
    | some (img_pattern, corners_model) =>
      let descs_model := env.getAll (some img_pattern) corners_model
      let descs_cfi_valid := env.getAll L cfi_valid
      let min_dist := getMinDistance norm corners_model
      let scaling_factor := checker_size / min_dist
      let corners_model := env.applyScale scaling_factor corners_model
      registration env corners_model cfi_valid descs_model descs_cfi_valid

/-- Stand-ins for the collaborators, used to run `findCheckerBoard` on an image without
corners: no corner is detected, the scale normalizer multiplies every coordinate by its
factor (`scalePoints`), ICP leaves the model where it is, every optimiser run returns its
start with the residual 0, and the transform applied at the end is the identity
`(0, 0, 0, 1)`. -/
def idleCollaborators : Collaborators F Unit :=
  { luminance := fun img => img
    harris := fun _ => []
    removeClosestCorners := fun l => l
    getAll := fun _ _ => ()
    iterativeClosestPoints2D := fun m _ _ _ => m
    run3 := fun _ _ _ => { tmp := (0, 0, 0), output_error := 0 }
    run4 := fun _ _ x => (x.1, x.2.1, x.2.2, 1)
    applyC := fun _ m => m
    applyScale := fun k m => scalePoints k m }

/-- A one-channel 4 x 4 real test image whose samples are all 0. -/
def blankImage : Image ℝ :=
  { width := 4, height := 4, channels := 1, data := fun _ _ _ => 0 }

end Orchestrator

/-! ## Theorems -/

section DistanceLemmas

variable {F : Type} [LinearOrderedField F]

theorem FLT_MAX_pos : (0 : F) < FLT_MAX := by
  unfold FLT_MAX; norm_num

theorem foldl_min_min (ds : List F) (a b : F) :
    ds.foldl min (min a b) = min a (ds.foldl min b) := by
  induction ds generalizing b with
  | nil => rfl
  | cons d ds ih => simp only [List.foldl_cons]; rw [min_assoc, ih]

theorem foldl_scanStep (norm : Vector2f F → F) (i : Nat) (p : Vector2f F)
    (l : List (Nat × Vector2f F)) (init : F) :
    l.foldl (scanStep norm i p) init =
      ((l.filter (fun q => decide (q.1 ≠ i))).map (fun q => norm (p - q.2))).foldl min init := by
  induction l generalizing init with
  | nil => rfl
  | cons q l ih =>
    simp only [List.foldl_cons, ih, List.filter_cons]
    by_cases hq : q.1 = i
    · simp [scanStep, hq]
    · simp only [scanStep, hq, if_false, ne_eq, not_false_eq_true, decide_True, if_true,
        List.map_cons, List.foldl_cons]
      congr 1
      by_cases hlt : norm (p - q.2) < init
      · rw [if_pos hlt, min_eq_right hlt.le]
      · rw [if_neg hlt, min_eq_left (not_lt.mp hlt)]

theorem scanOthers_eq (norm : Vector2f F → F) (points : List (Vector2f F)) (i : Nat)
    (p : Vector2f F) (init : F) :
    scanOthers norm points i p init = (distancesToOthers norm points i p).foldl min init :=
  foldl_scanStep norm i p points.enum init

theorem distancesToOthers_ne_nil (norm : Vector2f F → F) (points : List (Vector2f F))
    (hn : 2 ≤ points.length) (i : Nat) (p : Vector2f F) :
    distancesToOthers norm points i p ≠ [] := by
  have hj : (if i = 0 then 1 else 0) < points.length := by split <;> omega
  have hmem : ((if i = 0 then 1 else 0), points[(if i = 0 then 1 else 0)]) ∈ points.enum := by
    rw [List.mk_mem_enum_iff_getElem?]; exact List.getElem?_eq_getElem hj
  intro h
  have h2 : norm (p - points[(if i = 0 then 1 else 0)]) ∈ distancesToOthers norm points i p := by
    unfold distancesToOthers
    refine List.mem_map.mpr ⟨_, List.mem_filter.mpr ⟨hmem, ?_⟩, rfl⟩
    simp only [ne_eq, decide_eq_true_eq]
    split <;> omega
  rw [h] at h2
  exact List.not_mem_nil _ h2

theorem scanOthers_FLT_MAX (norm : Vector2f F → F) (points : List (Vector2f F))
    (hn : 2 ≤ points.length) (i : Nat) (p : Vector2f F) :
    scanOthers norm points i p FLT_MAX =
      min FLT_MAX (nearestNeighbourDistance norm points i p) := by
  rw [scanOthers_eq]
  unfold nearestNeighbourDistance
  have hne := distancesToOthers_ne_nil norm points hn i p
  cases hd : distancesToOthers norm points i p with
  | nil => exact absurd hd hne
  | cons d ds => simp only [List.foldl_cons]; exact foldl_min_min ds FLT_MAX d

theorem foldl_push_if {α : Type} (c : α → F) (M : F) (l : List α) (acc : List F) :
    l.foldl (fun m_d q => if c q < M then m_d ++ [c q] else m_d) acc =
      acc ++ (l.map c).filter (fun d => decide (d < M)) := by
  induction l generalizing acc with
  | nil => simp
  | cons q l ih =>
    simp only [List.foldl_cons, ih, List.map_cons, List.filter_cons]
    by_cases h : c q < M <;> simp [h]

theorem closestDistances_eq (norm : Vector2f F → F) (points : List (Vector2f F)) :
    closestDistances norm points =
      (points.enum.map (fun q => scanOthers norm points q.1 q.2 FLT_MAX)).filter
        (fun d => decide (d < FLT_MAX)) := by
  unfold closestDistances
  exact (foldl_push_if (fun q : Nat × Vector2f F => scanOthers norm points q.1 q.2 FLT_MAX)
    FLT_MAX points.enum []).trans (List.nil_append _)

theorem closestDistances_eq_filter (norm : Vector2f F → F) (points : List (Vector2f F))
    (hn : 2 ≤ points.length) :
    closestDistances norm points =
      (nearestNeighbourDistances norm points).filter (fun d => decide (d < FLT_MAX)) := by
  rw [closestDistances_eq, nearestNeighbourDistances]
  simp only [scanOthers_FLT_MAX norm points hn]
  induction points.enum with
  | nil => rfl
  | cons q l ih =>
    simp only [List.map_cons, List.filter_cons, ih]
    by_cases h : nearestNeighbourDistance norm points q.1 q.2 < FLT_MAX
    · simp [h, min_eq_right h.le]
    · simp [h, min_eq_left (not_lt.mp h)]

theorem nearestNeighbourDistances_length (norm : Vector2f F → F)
    (points : List (Vector2f F)) :
    (nearestNeighbourDistances norm points).length = points.length := by
  simp [nearestNeighbourDistances]

theorem estimateCheckerBoardSize_eq (norm : Vector2f F → F) (points : List (Vector2f F))
    (hn : 2 ≤ points.length) :
    estimateCheckerBoardSize norm points =
      if closestDistances norm points = [] then 0
      else median (closestDistances norm points) := by
  unfold estimateCheckerBoardSize median
  rw [if_neg (by omega)]
  by_cases h : closestDistances norm points = []
  · simp [h]
  · have h2 : (closestDistances norm points).isEmpty = false := by
      cases hc : closestDistances norm points with
      | nil => exact absurd hc h
      | cons d ds => rfl
    simp only [h2, Bool.not_false, if_true, if_neg h, List.length_insertionSort]

theorem IsEuclidean.norm_axis {norm : Vector2f F → F} (h : IsEuclidean norm) (a : F) :
    norm (a, 0) = |a| := by
  obtain ⟨h0, h1⟩ := h (a, 0)
  have h2 : norm (a, 0) * norm (a, 0) = |a| * |a| := by
    rw [h1, abs_mul_abs_self]; simp
  exact (mul_self_inj h0 (abs_nonneg a)).mp h2

theorem isEuclidean_sqrt :
    IsEuclidean (fun v : Vector2f ℝ => Real.sqrt (v.1 * v.1 + v.2 * v.2)) := by
  intro v
  exact ⟨Real.sqrt_nonneg _,
    Real.mul_self_sqrt (add_nonneg (mul_self_nonneg _) (mul_self_nonneg _))⟩

theorem sqrt_axis (a : ℝ) : Real.sqrt (a * a + 0 * 0) = |a| :=
  isEuclidean_sqrt.norm_axis a

theorem foldl_min_le_init (ds : List F) (a : F) : ds.foldl min a ≤ a := by
  induction ds generalizing a with
  | nil => exact le_refl a
  | cons d ds ih => exact (ih (min a d)).trans (min_le_left a d)

theorem foldl_min_le_mem (ds : List F) (a : F) {d : F} (hd : d ∈ ds) :
    ds.foldl min a ≤ d := by
  induction ds generalizing a with
  | nil => exact absurd hd (List.not_mem_nil d)
  | cons e ds ih =>
    rcases List.mem_cons.mp hd with rfl | h
    · exact (foldl_min_le_init ds (min a d)).trans (min_le_right a d)
    · exact ih (min a e) h

theorem foldl_min_mem (ds : List F) (a : F) :
    ds.foldl min a = a ∨ ds.foldl min a ∈ ds := by
  induction ds generalizing a with
  | nil => exact Or.inl rfl
  | cons d ds ih =>
    rcases ih (min a d) with h | h
    · rcases min_choice a d with h2 | h2
      · exact Or.inl (by rw [List.foldl_cons, h, h2])
      · exact Or.inr (by rw [List.foldl_cons, h, h2]; exact List.mem_cons_self d ds)
    · exact Or.inr (List.mem_cons_of_mem d h)

theorem foldl_scanOthers_eq (norm : Vector2f F → F) (points : List (Vector2f F))
    (l : List (Nat × Vector2f F)) (init : F) :
    l.foldl (fun ret q => scanOthers norm points q.1 q.2 ret) init =
      (l.flatMap (fun q => distancesToOthers norm points q.1 q.2)).foldl min init := by
  induction l generalizing init with
  | nil => rfl
  | cons q l ih =>
    rw [List.foldl_cons, ih, List.flatMap_cons, List.foldl_append, scanOthers_eq]

theorem getMinDistance_eq (norm : Vector2f F → F) (points : List (Vector2f F)) :
    getMinDistance norm points = (pairwiseDistances norm points).foldl min FLT_MAX :=
  foldl_scanOthers_eq norm points points.enum FLT_MAX

theorem IsEuclidean.norm_scale {norm : Vector2f F → F} (h : IsEuclidean norm) {k : F}
    (hk : 0 ≤ k) (p q : Vector2f F) :
    norm ((k * p.1, k * p.2) - (k * q.1, k * q.2)) = k * norm (p - q) := by
  obtain ⟨h0, h1⟩ := h ((k * p.1, k * p.2) - (k * q.1, k * q.2))
  obtain ⟨h2, h3⟩ := h (p - q)
  refine (mul_self_inj h0 (mul_nonneg hk h2)).mp ?_
  have h4 : k * norm (p - q) * (k * norm (p - q)) = k * k * (norm (p - q) * norm (p - q)) := by
    ring
  rw [h1, h4, h3]
  simp only [Prod.fst_sub, Prod.snd_sub]
  ring

theorem isolationFlag_iff (norm : Vector2f F → F) (c : F) (i : Nat) (p : Vector2f F)
    (l : List (Nat × Vector2f F)) :
    isolationFlag norm c i p l = true ↔ ∀ q ∈ l, q.1 ≠ i → c ≤ norm (p - q.2) := by
  induction l with
  | nil => simp [isolationFlag]
  | cons q l ih =>
    unfold isolationFlag
    by_cases hq : q.1 = i
    · simp only [hq, ne_eq, not_true_eq_false, if_false, ih, List.mem_cons, forall_eq_or_imp,
        false_imp_iff, true_and]
    · by_cases hlt : norm (p - q.2) < c
      · simp only [ne_eq, hq, not_false_eq_true, if_true, hlt, List.mem_cons,
          forall_eq_or_imp, true_imp_iff, Bool.false_eq_true, false_iff, not_and]
        intro hle
        exact absurd hlt (not_lt.mpr hle)
      · simp only [ne_eq, hq, not_false_eq_true, if_true, hlt, if_false, ih, List.mem_cons,
          forall_eq_or_imp, true_imp_iff, not_lt.mp hlt, true_and]

theorem foldl_push_filter {α β : Type} (b : α → Bool) (g : α → β) (l : List α)
    (acc : List β) :
    l.foldl (fun m q => if b q then m ++ [g q] else m) acc =
      acc ++ (l.filter b).map g := by
  induction l generalizing acc with
  | nil => simp
  | cons q l ih =>
    simp only [List.foldl_cons, ih, List.filter_cons]
    by_cases h : b q <;> simp [h]

theorem rotationSearch_inv (run : Nat → SeedRun F) (n : Nat) :
    (∀ j < n, ((List.range n).foldl (fun st i => searchStep st (run i))
        { x := none, prev_err := FLT_MAX }).prev_err ≤ (run j).output_error) ∧
    ((List.range n).foldl (fun st i => searchStep st (run i))
        { x := none, prev_err := FLT_MAX }).prev_err ≤ FLT_MAX ∧
    ((((List.range n).foldl (fun st i => searchStep st (run i))
        { x := none, prev_err := FLT_MAX }).x = none ∧
      ((List.range n).foldl (fun st i => searchStep st (run i))
        { x := none, prev_err := FLT_MAX }).prev_err = FLT_MAX) ∨
     ∃ k < n,
      ((List.range n).foldl (fun st i => searchStep st (run i))
        { x := none, prev_err := FLT_MAX }).x = some (run k).tmp ∧
      ((List.range n).foldl (fun st i => searchStep st (run i))
        { x := none, prev_err := FLT_MAX }).prev_err = (run k).output_error ∧
      (run k).output_error < FLT_MAX ∧
      ∀ j < k, (run k).output_error < (run j).output_error) := by
  induction n with
  | zero => simp
  | succ n ih =>
    rw [List.range_succ, List.foldl_append]
    simp only [List.foldl_cons, List.foldl_nil]
    generalize (List.range n).foldl (fun st i => searchStep st (run i))
      { x := none, prev_err := FLT_MAX } = st at ih ⊢
    obtain ⟨hle, hmax, hx⟩ := ih
    unfold searchStep
    by_cases hlt : (run n).output_error < st.prev_err
    · simp only [hlt, if_true]
      refine ⟨?_, hlt.le.trans hmax, Or.inr ⟨n, Nat.lt_succ_self n, rfl, rfl,
        lt_of_lt_of_le hlt hmax, fun j hj => lt_of_lt_of_le hlt (hle j hj)⟩⟩
      intro j hj
      rcases Nat.lt_succ_iff_lt_or_eq.mp hj with h | h
      · exact hlt.le.trans (hle j h)
      · rw [h]
    · simp only [hlt, if_false]
      refine ⟨?_, hmax, ?_⟩
      · intro j hj
        rcases Nat.lt_succ_iff_lt_or_eq.mp hj with h | h
        · exact hle j h
        · rw [h]; exact not_lt.mp hlt
      · rcases hx with h | ⟨k, hk, h⟩
        · exact Or.inl h
        · exact Or.inr ⟨k, Nat.lt_succ_of_lt hk, h⟩

theorem median_mem (l : List F) (h : l ≠ []) : median l ∈ l := by
  unfold median
  have hlen : l.length / 2 < (l.insertionSort (· ≤ ·)).length := by
    rw [List.length_insertionSort]
    have : 0 < l.length := List.length_pos.mpr h
    omega
  rw [List.getD_eq_getElem _ _ hlen]
  exact (List.perm_insertionSort (· ≤ ·) l).mem_iff.mp (List.getElem_mem hlen)

theorem nearestNeighbourDistance_mem (norm : Vector2f F → F) (points : List (Vector2f F))
    (hn : 2 ≤ points.length) (i : Nat) (p : Vector2f F) :
    nearestNeighbourDistance norm points i p ∈ distancesToOthers norm points i p := by
  unfold nearestNeighbourDistance
  have hne := distancesToOthers_ne_nil norm points hn i p
  cases hd : distancesToOthers norm points i p with
  | nil => exact absurd hd hne
  | cons d ds =>
    rcases foldl_min_mem ds d with h | h
    · simp only [h]; exact List.mem_cons_self d ds
    · exact List.mem_cons_of_mem d h

theorem nearestNeighbourDistance_le (norm : Vector2f F → F) (points : List (Vector2f F))
    (i : Nat) (p : Vector2f F) {d : F} (hd : d ∈ distancesToOthers norm points i p) :
    nearestNeighbourDistance norm points i p ≤ d := by
  unfold nearestNeighbourDistance
  cases hds : distancesToOthers norm points i p with
  | nil => rw [hds] at hd; exact absurd hd (List.not_mem_nil d)
  | cons e ds =>
    rw [hds] at hd
    rcases List.mem_cons.mp hd with rfl | h
    · exact foldl_min_le_init ds d
    · exact foldl_min_le_mem ds e h

theorem mem_distancesToOthers (norm : Vector2f F → F) (points : List (Vector2f F))
    (i : Nat) (p : Vector2f F) (d : F) :
    d ∈ distancesToOthers norm points i p ↔
      ∃ q ∈ points.enum, q.1 ≠ i ∧ norm (p - q.2) = d := by
  unfold distancesToOthers
  simp only [List.mem_map, List.mem_filter, ne_eq, decide_eq_true_eq, and_assoc]

/-- If every point has all other points at distance at least `lo` and some other point at
distance at most `hi`, with `hi` below `FLT_MAX`, then both estimators return a value
between `lo` and `hi`. -/
theorem estimators_between (norm : Vector2f F → F) (points : List (Vector2f F))
    (hn : 2 ≤ points.length) (lo hi : F) (hhi : hi < FLT_MAX)
    (hlo : ∀ p ∈ points.enum, ∀ q ∈ points.enum, q.1 ≠ p.1 → lo ≤ norm (p.2 - q.2))
    (hnear : ∀ p ∈ points.enum, ∃ q ∈ points.enum, q.1 ≠ p.1 ∧ norm (p.2 - q.2) ≤ hi) :
    (lo ≤ estimateCheckerBoardSize norm points ∧ estimateCheckerBoardSize norm points ≤ hi) ∧
    (lo ≤ getMinDistance norm points ∧ getMinDistance norm points ≤ hi) := by
  have hnn : ∀ d ∈ nearestNeighbourDistances norm points, lo ≤ d ∧ d ≤ hi := by
    intro d hd
    obtain ⟨p, hp, rfl⟩ := List.mem_map.mp hd
    constructor
    · obtain ⟨q, hq, hne, he⟩ := (mem_distancesToOthers norm points p.1 p.2 _).mp
        (nearestNeighbourDistance_mem norm points hn p.1 p.2)
      rw [← he]
      exact hlo p hp q hq hne
    · obtain ⟨q, hq, hne, hle⟩ := hnear p hp
      exact (nearestNeighbourDistance_le norm points p.1 p.2
        ((mem_distancesToOthers norm points p.1 p.2 _).mpr ⟨q, hq, hne, rfl⟩)).trans hle
  have hne : nearestNeighbourDistances norm points ≠ [] := by
    intro h
    have := nearestNeighbourDistances_length norm points
    rw [h] at this
    simp at this
    omega
  have hc : closestDistances norm points = nearestNeighbourDistances norm points := by
    rw [closestDistances_eq_filter norm points hn, List.filter_eq_self]
    intro d hd
    exact decide_eq_true (lt_of_le_of_lt (hnn d hd).2 hhi)
  have hp0 : ∃ p, p ∈ points.enum := by
    have : points.enum ≠ [] := by
      intro h
      have := List.enum_length (l := points)
      rw [h] at this
      simp at this
      omega
    exact List.exists_mem_of_ne_nil _ this
  refine ⟨?_, ?_, ?_⟩
  · rw [estimateCheckerBoardSize_eq norm points hn, hc, if_neg hne]
    exact hnn _ (median_mem _ hne)
  · rw [getMinDistance_eq]
    obtain ⟨p, hp⟩ := hp0
    obtain ⟨q, hq, hne', hle⟩ := hnear p hp
    rcases foldl_min_mem (pairwiseDistances norm points) FLT_MAX with h | h
    · have h2 : (pairwiseDistances norm points).foldl min FLT_MAX ≤ norm (p.2 - q.2) :=
        foldl_min_le_mem _ _ (List.mem_flatMap.mpr ⟨p, hp,
          (mem_distancesToOthers norm points p.1 p.2 _).mpr ⟨q, hq, hne', rfl⟩⟩)
      rw [h] at h2
      exact absurd (lt_of_le_of_lt (h2.trans hle) hhi) (lt_irrefl _)
    · obtain ⟨p', hp', hd⟩ := List.mem_flatMap.mp h
      obtain ⟨q', hq', hne'', he⟩ := (mem_distancesToOthers norm points p'.1 p'.2 _).mp hd
      rw [← he]
      exact hlo p' hp' q' hq' hne''
  · rw [getMinDistance_eq]
    obtain ⟨p, hp⟩ := hp0
    obtain ⟨q, hq, hne', hle⟩ := hnear p hp
    exact (foldl_min_le_mem _ _ (List.mem_flatMap.mpr ⟨p, hp,
      (mem_distancesToOthers norm points p.1 p.2 _).mpr ⟨q, hq, hne', rfl⟩⟩)).trans hle

end DistanceLemmas

section PatternLemmas

variable {F : Type} [LinearOrderedField F]

theorem mem_intRange (lo hi v : Int) : v ∈ intRange lo hi ↔ lo ≤ v ∧ v < hi := by
  unfold intRange
  rw [List.mem_map]
  constructor
  · rintro ⟨k, hk, rfl⟩
    rw [List.mem_range] at hk
    omega
  · rintro ⟨h1, h2⟩
    refine ⟨(v - lo).toNat, ?_, ?_⟩
    · rw [List.mem_range]; omega
    · omega

theorem intRange_succ (lo v : Int) (h : lo ≤ v) :
    intRange lo (v + 1) = intRange lo v ++ [v] := by
  unfold intRange
  have h1 : (v + 1 - lo).toNat = (v - lo).toNat + 1 := by omega
  rw [h1, List.range_succ, List.map_append, List.map_singleton]
  congr 2
  omega

theorem intRange_empty (lo hi : Int) (h : hi ≤ lo) : intRange lo hi = [] := by
  unfold intRange
  have h1 : (hi - lo).toNat = 0 := by omega
  rw [h1]; rfl

theorem intRange_length (lo hi : Int) : (intRange lo hi).length = (hi - lo).toNat := by
  simp [intRange]

/-- Invariant rule for a `for(int v = lo; v < hi; v++)` loop whose body may fail. -/
theorem foldlM_intRange {β : Type} (f : β → Int → Option β) (lo hi : Int) (h : lo ≤ hi)
    (I : Int → β → Prop) (b0 : β) (h0 : I lo b0)
    (hstep : ∀ v b, lo ≤ v → v < hi → I v b → ∃ b', f b v = some b' ∧ I (v + 1) b') :
    ∃ b', (intRange lo hi).foldlM f b0 = some b' ∧ I hi b' := by
  have key : ∀ n : Nat, lo + (n : Int) ≤ hi →
      ∃ b', (intRange lo (lo + (n : Int))).foldlM f b0 = some b' ∧ I (lo + (n : Int)) b' := by
    intro n
    induction n with
    | zero =>
      intro _
      refine ⟨b0, ?_, by simpa using h0⟩
      rw [intRange_empty _ _ (by simp)]
      rfl
    | succ n ih =>
      intro hn
      obtain ⟨b1, hb1, hI1⟩ := ih (by push_cast at hn ⊢; omega)
      obtain ⟨b2, hb2, hI2⟩ := hstep (lo + (n : Int)) b1 (by omega)
        (by push_cast at hn; omega) hI1
      refine ⟨b2, ?_, ?_⟩
      · have e : lo + ((n + 1 : Nat) : Int) = lo + (n : Int) + 1 := by push_cast; ring
        rw [e, intRange_succ _ _ (by omega), List.foldlM_append, hb1]
        simp [hb2]
      · have e : lo + ((n + 1 : Nat) : Int) = lo + (n : Int) + 1 := by push_cast; ring
        rw [e]; exact hI2
  have e : lo + ((hi - lo).toNat : Int) = hi := by omega
  have := key (hi - lo).toNat (by omega)
  rwa [e] at this

theorem Repaint.of_empty (img : Image F) (S : Int → Int → Prop) (h : ∀ a b, ¬ S a b) :
    Repaint img img S :=
  ⟨rfl, rfl, rfl, fun a b _ => ⟨fun hs => absurd hs.2 (h a b), fun _ => rfl⟩⟩

theorem Repaint.trans {i0 i1 i2 : Image F} {S1 S2 S : Int → Int → Prop}
    (h1 : Repaint i0 i1 S1) (h2 : Repaint i1 i2 S2)
    (hS : ∀ a b, S a b ↔ S1 a b ∨ S2 a b) : Repaint i0 i2 S := by
  obtain ⟨w1, e1, c1, d1⟩ := h1
  obtain ⟨w2, e2, c2, d2⟩ := h2
  refine ⟨w2.trans w1, e2.trans e1, c2.trans c1, fun a b c => ⟨?_, ?_⟩⟩
  · rintro ⟨hc, hs⟩
    by_cases h2' : S2 a b
    · exact (d2 a b c).1 ⟨hc, h2'⟩
    · rw [(d2 a b c).2 (fun h => h2' h.2)]
      rcases (hS a b).mp hs with h | h
      · exact (d1 a b c).1 ⟨hc, h⟩
      · exact absurd h h2'
  · intro hn
    have n1 : ¬(c = 0 ∧ S1 a b) := fun h => hn ⟨h.1, (hS a b).mpr (Or.inl h.2)⟩
    have n2 : ¬(c = 0 ∧ S2 a b) := fun h => hn ⟨h.1, (hS a b).mpr (Or.inr h.2)⟩
    rw [(d2 a b c).2 n2, (d1 a b c).2 n1]

theorem Image.write_spec (img : Image F) (x y : Int) (hx : 0 ≤ x) (hxw : x < img.width)
    (hy : 0 ≤ y) (hyh : y < img.height) (hc : 0 < img.channels) :
    ∃ img', img.write x y 0 0 = some img' ∧ Repaint img img' (fun a b => a = x ∧ b = y) := by
  refine ⟨_, if_pos ⟨hx, hxw, hy, hyh, le_refl 0, hc⟩, rfl, rfl, rfl, fun a b c => ⟨?_, ?_⟩⟩
  · rintro ⟨rfl, rfl, rfl⟩
    simp
  · intro hn
    have : ¬(a = x ∧ b = y ∧ c = 0) := fun h => hn ⟨h.2.2, h.1, h.2.1⟩
    simp [this]

theorem fillRow_spec (img : Image F) (x yy size : Int) (hs : 0 ≤ size) (hx : 0 ≤ x)
    (hxw : x + size ≤ img.width) (hy : 0 ≤ yy) (hyh : yy < img.height)
    (hc : 0 < img.channels) :
    ∃ img', (intRange x (x + size)).foldlM (fun im xx => im.write xx yy 0 0) img = some img' ∧
      Repaint img img' (fun a b => b = yy ∧ x ≤ a ∧ a < x + size) := by
  refine foldlM_intRange (fun im xx => im.write xx yy 0 0) x (x + size) (by omega)
    (fun xx im => Repaint img im (fun a b => b = yy ∧ x ≤ a ∧ a < xx)) img
    (Repaint.of_empty img _ (by intro a b; omega)) ?_
  intro xx im h1 h2 hI
  obtain ⟨w, e, c, -⟩ := id hI
  obtain ⟨im', hw, hr⟩ := Image.write_spec im xx yy (by omega) (by omega) hy (by omega)
    (by omega)
  exact ⟨im', hw, hI.trans hr (by intro a b; omega)⟩

theorem fillCell_spec (img : Image F) (x y size : Int)
    (hb : 0 < size →
      0 ≤ x ∧ x + size ≤ img.width ∧ 0 ≤ y ∧ y + size ≤ img.height ∧ 0 < img.channels) :
    ∃ img', fillCell img x y size = some img' ∧
      Repaint img img' (fun a b => x ≤ a ∧ a < x + size ∧ y ≤ b ∧ b < y + size) := by
  unfold fillCell
  by_cases hs : 0 < size
  · obtain ⟨hx, hxw, hy, hyh, hc⟩ := hb hs
    refine foldlM_intRange _ y (y + size) (by omega)
      (fun yy im => Repaint img im (fun a b => x ≤ a ∧ a < x + size ∧ y ≤ b ∧ b < yy)) img
      (Repaint.of_empty img _ (by intro a b; omega)) ?_
    intro yy im h1 h2 hI
    obtain ⟨w, e, c, -⟩ := id hI
    obtain ⟨im', hw, hr⟩ := fillRow_spec im x yy size hs.le hx (by omega) (by omega)
      (by omega) (by omega)
    exact ⟨im', hw, hI.trans hr (by intro a b; omega)⟩
  · rw [intRange_empty y (y + size) (by omega)]
    exact ⟨img, rfl, Repaint.of_empty img _ (by intro a b; omega)⟩

theorem cell_bound (j cx size : Int) (h1 : 1 ≤ j) (h2 : j ≤ cx) (hs : 0 < size) :
    0 ≤ j * size ∧ j * size + size ≤ (cx + 1) * size := by
  constructor
  · exact mul_nonneg (by omega) hs.le
  · have : 0 ≤ (cx - j) * size := mul_nonneg (by omega) hs.le
    linarith

theorem paintedUpTo_succ (cx cy size i j : Int) (hi : 1 ≤ i) (hj : 1 ≤ j) (hjx : j ≤ cx)
    (a b : Int) :
    PaintedUpTo cx cy size i (j + 1) a b ↔
      PaintedUpTo cx cy size i j a b ∨
        (bDraw cx cy i j = true ∧
          (j * size ≤ a ∧ a < j * size + size ∧ i * size ≤ b ∧ b < i * size + size)) := by
  constructor
  · rintro ⟨i', j', h1, h2, h3, h4, h5, h6⟩
    by_cases he : i' = i ∧ j' = j
    · obtain ⟨rfl, rfl⟩ := he
      exact Or.inr ⟨h5, h6⟩
    · refine Or.inl ⟨i', j', h1, h2, h3, ?_, h5, h6⟩
      omega
  · rintro (⟨i', j', h1, h2, h3, h4, h5, h6⟩ | ⟨h5, h6⟩)
    · refine ⟨i', j', h1, h2, h3, ?_, h5, h6⟩
      omega
    · exact ⟨i, j, hi, hj, hjx, Or.inr ⟨rfl, by omega⟩, h5, h6⟩

theorem paintedUpTo_row (cx cy size i : Int) (a b : Int) :
    PaintedUpTo cx cy size (i + 1) 1 a b ↔ PaintedUpTo cx cy size i (cx + 1) a b := by
  constructor
  · rintro ⟨i', j', h1, h2, h3, h4, h5, h6⟩
    refine ⟨i', j', h1, h2, h3, ?_, h5, h6⟩
    omega
  · rintro ⟨i', j', h1, h2, h3, h4, h5, h6⟩
    refine ⟨i', j', h1, h2, h3, ?_, h5, h6⟩
    omega

theorem pointsUpTo_succ (cx size i j : Int) (hj : 1 ≤ j) :
    (pointsUpTo cx size i (j + 1) : List (Vector2f F)) =
      pointsUpTo cx size i j ++ [(intToFloat (j * size), intToFloat (i * size))] := by
  unfold pointsUpTo
  rw [intRange_succ 1 j hj, List.map_append, List.map_singleton, List.append_assoc]

theorem pointsUpTo_row (cx size i : Int) (hi : 1 ≤ i) :
    (pointsUpTo cx size (i + 1) 1 : List (Vector2f F)) = pointsUpTo cx size i (cx + 1) := by
  unfold pointsUpTo
  rw [intRange_succ 1 i hi, List.flatMap_append, intRange_empty 1 1 (le_refl 1)]
  simp

/-- Both loops of `getCheckerBoardModel`: no write leaves the image, the dark pixels are
those of `PaintedUpTo` for all rows, and the points are appended in row-major order. -/
theorem getCheckerBoardModel_spec (cx cy size : Int) (hx : 0 ≤ cx) (hy : 0 ≤ cy)
    (out : List (Vector2f F)) :
    ∃ img : Image F,
      getCheckerBoardModel cx cy size out = some (img, out ++ generatedPoints cx cy size) ∧
      Repaint ({ width := (cx + 1) * size, height := (cy + 1) * size, channels := 1,
                 data := fun _ _ _ => 1 } : Image F) img
        (PaintedUpTo cx cy size (cy + 1) 1) := by
  have hmain := foldlM_intRange
    (fun (st : Image F × List (Vector2f F)) i =>
      (intRange 1 (cx + 1)).foldlM
        (fun st j =>
          if bDraw cx cy i j then
            (fillCell st.1 (j * size) (i * size) size).map
              (fun img => (img, st.2 ++ [(intToFloat (j * size), intToFloat (i * size))]))
          else some (st.1, st.2 ++ [(intToFloat (j * size), intToFloat (i * size))]))
        st)
    1 (cy + 1) (by omega)
    (fun i st =>
      Repaint ({ width := (cx + 1) * size, height := (cy + 1) * size, channels := 1,
                 data := fun _ _ _ => 1 } : Image F) st.1 (PaintedUpTo cx cy size i 1) ∧
      st.2 = out ++ pointsUpTo cx size i 1)
    (({ width := (cx + 1) * size, height := (cy + 1) * size, channels := 1,
        data := fun _ _ _ => 1 } : Image F), out)
    ⟨Repaint.of_empty _ _ (by rintro a b ⟨i, j, h⟩; omega), by
      simp [pointsUpTo, intRange_empty 1 1 (le_refl 1)]⟩ ?_
  · obtain ⟨⟨img, pts⟩, hrun, hrep, hpts⟩ := hmain
    refine ⟨img, ?_, hrep⟩
    have e : out ++ generatedPoints cx cy size = pts := by
      have hpts' : pts = out ++ pointsUpTo cx size (cy + 1) 1 := hpts
      rw [hpts']
      simp [pointsUpTo, generatedPoints, intRange_empty 1 1 (le_refl 1)]
    rw [e]
    exact hrun
  · intro i st hi1 hi2 hI
    have hrow := foldlM_intRange
      (fun (st : Image F × List (Vector2f F)) j =>
        if bDraw cx cy i j then
          (fillCell st.1 (j * size) (i * size) size).map
            (fun img => (img, st.2 ++ [(intToFloat (j * size), intToFloat (i * size))]))
        else some (st.1, st.2 ++ [(intToFloat (j * size), intToFloat (i * size))]))
      1 (cx + 1) (by omega)
      (fun j st =>
        Repaint ({ width := (cx + 1) * size, height := (cy + 1) * size, channels := 1,
                   data := fun _ _ _ => 1 } : Image F) st.1 (PaintedUpTo cx cy size i j) ∧
        st.2 = out ++ pointsUpTo cx size i j)
      st hI ?_
    · obtain ⟨st', hrun, hrep, hpts⟩ := hrow
      refine ⟨st', hrun, ?_, ?_⟩
      · exact hrep.trans (Repaint.of_empty st'.1 (fun _ _ => False) (fun _ _ h => h))
          (fun a b => by rw [paintedUpTo_row]; simp)
      · rw [hpts, pointsUpTo_row cx size i hi1]
    · intro j st hj1 hj2 ⟨hrep, hpts⟩
      obtain ⟨w, e, c, -⟩ := id hrep
      by_cases hd : bDraw cx cy i j = true
      · obtain ⟨img', hfill, hrep'⟩ := fillCell_spec st.1 (j * size) (i * size) size (by
          intro hs
          have bx := cell_bound j cx size hj1 (by omega) hs
          have by' := cell_bound i cy size hi1 (by omega) hs
          rw [w, e, c]
          exact ⟨bx.1, bx.2, by'.1, by'.2, by norm_num⟩)
        refine ⟨(img', st.2 ++ [(intToFloat (j * size), intToFloat (i * size))]), ?_, ?_, ?_⟩
        · simp only [hd, if_true, hfill, Option.map_some']
        · exact hrep.trans hrep' (fun a b => by
            rw [paintedUpTo_succ cx cy size i j hi1 hj1 (by omega)]; simp [hd])
        · rw [hpts, pointsUpTo_succ cx size i j hj1, List.append_assoc]
      · refine ⟨(st.1, st.2 ++ [(intToFloat (j * size), intToFloat (i * size))]), ?_, ?_, ?_⟩
        · simp only [hd, if_false, Bool.false_eq_true]
        · exact hrep.trans (Repaint.of_empty st.1 (fun _ _ => False) (fun _ _ h => h))
            (fun a b => by
              rw [paintedUpTo_succ cx cy size i j hi1 hj1 (by omega)]; simp [hd])
        · rw [hpts, pointsUpTo_succ cx size i j hj1, List.append_assoc]

theorem flatMap_length_const {α β : Type} (f : α → List β) (n : Nat) (l : List α)
    (h : ∀ a ∈ l, (f a).length = n) : (l.flatMap f).length = l.length * n := by
  induction l with
  | nil => simp
  | cons a l ih =>
    rw [List.flatMap_cons, List.length_append, h a (List.mem_cons_self a l),
      ih (fun b hb => h b (List.mem_cons_of_mem a hb)), List.length_cons]
    ring

theorem flatMap_getElem?_const {α β : Type} (f : α → List β) (n : Nat) (l : List α)
    (h : ∀ a ∈ l, (f a).length = n) (r c : Nat) (hc : c < n) (a : α)
    (hr : l[r]? = some a) : (l.flatMap f)[r * n + c]? = (f a)[c]? := by
  induction l generalizing r with
  | nil => simp at hr
  | cons b l ih =>
    rw [List.flatMap_cons]
    cases r with
    | zero =>
      simp only [List.getElem?_cons_zero, Option.some.injEq] at hr
      subst hr
      rw [Nat.zero_mul, Nat.zero_add, List.getElem?_append_left]
      rw [h b (List.mem_cons_self b l)]; exact hc
    | succ r =>
      simp only [List.getElem?_cons_succ] at hr
      have hb := h b (List.mem_cons_self b l)
      rw [List.getElem?_append_right (by rw [hb]; nlinarith), hb]
      have e : (r + 1) * n + c - n = r * n + c := by
        have : (r + 1) * n = r * n + n := by ring
        omega
      rw [e]
      exact ih (fun a ha => h a (List.mem_cons_of_mem b ha)) r hr

theorem intRange_getElem? (lo hi : Int) (k : Nat) (hk : k < (hi - lo).toNat) :
    (intRange lo hi)[k]? = some (lo + (k : Int)) := by
  unfold intRange
  rw [List.getElem?_map, List.getElem?_range hk]
  rfl

theorem modelPoints_length (cx cy size : Int) :
    (modelPoints cx cy size : List (Vector2f F)).length = cy.toNat * cx.toNat := by
  unfold modelPoints
  rw [flatMap_length_const _ cx.toNat, intRange_length]
  · congr 1; omega
  · intro a _
    rw [List.length_map, intRange_length]; omega

theorem modelPoints_getElem? (cx cy size : Int) (r c : Nat) (hr : r < cy.toNat)
    (hc : c < cx.toNat) :
    (modelPoints cx cy size : List (Vector2f F))[r * cx.toNat + c]? =
      some (((((c : Int) + 1) * size : Int) : F), ((((r : Int) + 1) * size : Int) : F)) := by
  unfold modelPoints
  rw [flatMap_getElem?_const _ cx.toNat _ _ r c hc (1 + (r : Int))
    (intRange_getElem? 1 (cy + 1) r (by omega))]
  · rw [List.getElem?_map, intRange_getElem? 1 (cx + 1) c (by omega)]
    simp only [Option.map_some', add_comm]
  · intro a _
    rw [List.length_map, intRange_length]; omega

theorem excessBits_of_lt (fuel n : Nat) (h : n < 16777216) : excessBits fuel n = 0 := by
  cases fuel with
  | zero => rfl
  | succ f => simp [excessBits, h]

/-- An integer of magnitude at most 2^24 is a single-precision number. -/
theorem roundToBinary32_of_abs_le (z : Int) (h : |z| ≤ 16777216) : roundToBinary32 z = z := by
  obtain ⟨ha, hb⟩ := abs_le.mp h
  have hn : z.natAbs ≤ 16777216 := by omega
  unfold roundToBinary32
  rcases Nat.lt_or_ge z.natAbs 16777216 with h1 | h1
  · simp only [excessBits_of_lt _ _ h1, pow_zero, Nat.div_one, Nat.mod_one, mul_zero,
      Nat.lt_one_iff, if_true, mul_one]
    split <;> omega
  · have e : z.natAbs = 16777216 := by omega
    rw [e]
    have : excessBits 16777216 16777216 = 1 := by decide
    simp only [this]
    norm_num
    split <;> omega

theorem wrapInt_of_range (z : Int) (h1 : INT_MIN ≤ z) (h2 : z ≤ INT_MAX) : wrapInt z = z := by
  unfold INT_MIN at h1
  unfold INT_MAX at h2
  unfold wrapInt
  omega

theorem wrapInt_range (z : Int) : INT_MIN ≤ wrapInt z ∧ wrapInt z ≤ INT_MAX := by
  unfold INT_MIN INT_MAX wrapInt
  omega

theorem intToFloat_of_range (z : Int) (h1 : INT_MIN ≤ z) (h2 : z ≤ INT_MAX) :
    (intToFloat z : F) = ((roundToBinary32 z : Int) : F) := by
  unfold intToFloat
  rw [wrapInt_of_range z h1 h2]

theorem intToFloat_of_abs_le (z : Int) (h : |z| ≤ 16777216) : (intToFloat z : F) = (z : F) := by
  obtain ⟨ha, hb⟩ := abs_le.mp h
  rw [intToFloat_of_range z (by unfold INT_MIN; omega) (by unfold INT_MAX; omega),
    roundToBinary32_of_abs_le z h]

theorem generatedPoints_getElem? (cx cy size : Int) (r c : Nat) (hr : r < cy.toNat)
    (hc : c < cx.toNat) :
    (generatedPoints cx cy size : List (Vector2f F))[r * cx.toNat + c]? =
      some (intToFloat (((c : Int) + 1) * size), intToFloat (((r : Int) + 1) * size)) := by
  unfold generatedPoints
  rw [flatMap_getElem?_const _ cx.toNat _ _ r c hc (1 + (r : Int))
    (intRange_getElem? 1 (cy + 1) r (by omega))]
  · rw [List.getElem?_map, intRange_getElem? 1 (cx + 1) c (by omega)]
    simp only [Option.map_some', add_comm]
  · intro a _
    rw [List.length_map, intRange_length]; omega

/-- The magnitude of a product `j * size` with `1 <= j <= cx` is at most that of
`cx * size`. -/
theorem abs_mul_le_of_le (j cx size : Int) (h1 : 1 ≤ j) (h2 : j ≤ cx) :
    |j * size| ≤ |cx * size| := by
  rw [abs_mul, abs_mul, abs_of_nonneg (by omega : (0 : Int) ≤ j),
    abs_of_nonneg (by omega : (0 : Int) ≤ cx)]
  exact mul_le_mul_of_nonneg_right h2 (abs_nonneg size)

/-- When no coordinate exceeds 2^24 in magnitude the pushed points are the exact lattice
points. -/
theorem generatedPoints_eq_modelPoints (cx cy size : Int)
    (hbx : |cx * size| ≤ 16777216) (hby : |cy * size| ≤ 16777216) :
    (generatedPoints cx cy size : List (Vector2f F)) = modelPoints cx cy size := by
  unfold generatedPoints modelPoints
  refine List.flatMap_congr ?_
  intro i hi
  rw [mem_intRange] at hi
  refine List.map_congr_left ?_
  intro j hj
  rw [mem_intRange] at hj
  rw [intToFloat_of_abs_le _ ((abs_mul_le_of_le j cx size hj.1 (by omega)).trans hbx),
    intToFloat_of_abs_le _ ((abs_mul_le_of_le i cy size hi.1 (by omega)).trans hby)]

end PatternLemmas

section GridLemmas

variable {F : Type} [LinearOrderedField F]

theorem IsEuclidean.norm_sub_comm {norm : Vector2f F → F} (h : IsEuclidean norm)
    (a b : Vector2f F) : norm (a - b) = norm (b - a) := by
  obtain ⟨h0, h1⟩ := h (a - b)
  obtain ⟨h2, h3⟩ := h (b - a)
  refine (mul_self_inj h0 h2).mp ?_
  rw [h1, h3]
  simp only [Prod.fst_sub, Prod.snd_sub]
  ring

theorem IsEuclidean.norm_add_le {norm : Vector2f F → F} (h : IsEuclidean norm)
    (a b : Vector2f F) : norm (a + b) ≤ norm a + norm b := by
  obtain ⟨hA, hA2⟩ := h a
  obtain ⟨hB, hB2⟩ := h b
  obtain ⟨hC, hC2⟩ := h (a + b)
  simp only [Prod.fst_add, Prod.snd_add] at hC2
  by_contra hlt
  rw [not_le] at hlt
  have h1 : (norm a + norm b) * (norm a + norm b) < norm (a + b) * norm (a + b) :=
    mul_self_lt_mul_self (add_nonneg hA hB) hlt
  have h2 : norm a * norm b < a.1 * b.1 + a.2 * b.2 := by nlinarith
  have h3 : (norm a * norm b) * (norm a * norm b) <
      (a.1 * b.1 + a.2 * b.2) * (a.1 * b.1 + a.2 * b.2) :=
    mul_self_lt_mul_self (mul_nonneg hA hB) h2
  have h4 : (norm a * norm b) * (norm a * norm b) =
      (a.1 * a.1 + a.2 * a.2) * (b.1 * b.1 + b.2 * b.2) := by
    rw [← hA2, ← hB2]; ring
  have h5 : 0 ≤ (a.1 * b.2 - a.2 * b.1) * (a.1 * b.2 - a.2 * b.1) := mul_self_nonneg _
  nlinarith

theorem IsEuclidean.le_of_sq_le {norm : Vector2f F → F} (h : IsEuclidean norm)
    (w : Vector2f F) (s : F) (hs : s * s ≤ w.1 * w.1 + w.2 * w.2) : s ≤ norm w := by
  obtain ⟨h0, h1⟩ := h w
  by_contra hlt
  rw [not_le] at hlt
  have := mul_self_lt_mul_self h0 hlt
  rw [h1] at this
  exact absurd hs (not_le.mpr this)

theorem IsEuclidean.eq_of_sq_eq {norm : Vector2f F → F} (h : IsEuclidean norm)
    (w : Vector2f F) (s : F) (h0 : 0 ≤ s) (hs : w.1 * w.1 + w.2 * w.2 = s * s) :
    norm w = s := by
  obtain ⟨h1, h2⟩ := h w
  exact (mul_self_inj h1 h0).mp (h2.trans hs)

/-- Distance between two points in terms of the distance between their lattice
positions and their two displacements. -/
theorem IsEuclidean.jitter_bounds {norm : Vector2f F → F} (h : IsEuclidean norm)
    (p p' l l' : Vector2f F) :
    norm (l - l') - norm (p - l) - norm (p' - l') ≤ norm (p - p') ∧
    norm (p - p') ≤ norm (l - l') + norm (p - l) + norm (p' - l') := by
  constructor
  · have e : l - l' = ((l - p) + (p - p')) + (p' - l') := by
      ext <;> simp
    have t1 := h.norm_add_le ((l - p) + (p - p')) (p' - l')
    have t2 := h.norm_add_le (l - p) (p - p')
    rw [← e] at t1
    rw [h.norm_sub_comm l p] at t2
    linarith
  · have e : p - p' = ((p - l) + (l - l')) + (l' - p') := by
      ext <;> simp
    have t1 := h.norm_add_le ((p - l) + (l - l')) (l' - p')
    have t2 := h.norm_add_le (p - l) (l - l')
    rw [← e] at t1
    rw [h.norm_sub_comm l' p'] at t1
    linarith

theorem natCast_sub_sq_ge_one (a b : Nat) (hab : a ≠ b) :
    (1 : F) ≤ ((a : F) - (b : F)) * ((a : F) - (b : F)) := by
  rcases Nat.lt_or_gt_of_ne hab with h | h
  · have h1 : (a : F) + 1 ≤ (b : F) := by exact_mod_cast h
    nlinarith
  · have h1 : (b : F) + 1 ≤ (a : F) := by exact_mod_cast h
    nlinarith

theorem latticePoint_sq {norm : Vector2f F → F} (h : IsEuclidean norm) (o u v : Vector2f F)
    (s : F) (hu : norm u = s) (hv : norm v = s) (huv : u.1 * v.1 + u.2 * v.2 = 0)
    (r c r' c' : Nat) :
    (latticePoint o u v r c - latticePoint o u v r' c').1 *
        (latticePoint o u v r c - latticePoint o u v r' c').1 +
      (latticePoint o u v r c - latticePoint o u v r' c').2 *
        (latticePoint o u v r c - latticePoint o u v r' c').2 =
      (((c : F) - (c' : F)) * ((c : F) - (c' : F)) +
        ((r : F) - (r' : F)) * ((r : F) - (r' : F))) * (s * s) := by
  have hu2 := (h u).2
  have hv2 := (h v).2
  rw [hu] at hu2
  rw [hv] at hv2
  simp only [latticePoint, Prod.fst_sub, Prod.snd_sub]
  linear_combination (2 * ((c : F) - (c' : F)) * ((r : F) - (r' : F))) * huv -
    (((c : F) - (c' : F)) * ((c : F) - (c' : F))) * hu2 -
    (((r : F) - (r' : F)) * ((r : F) - (r' : F))) * hv2

theorem gridPoints_length (o u v : Vector2f F) (cols rows : Nat) :
    (gridPoints o u v cols rows).length = rows * cols := by
  unfold gridPoints
  rw [flatMap_length_const _ cols, List.length_range]
  intro a _
  rw [List.length_map, List.length_range]

theorem gridPoints_getElem? (o u v : Vector2f F) (cols rows r c : Nat) (hr : r < rows)
    (hc : c < cols) :
    (gridPoints o u v cols rows)[r * cols + c]? = some (latticePoint o u v r c) := by
  unfold gridPoints
  rw [flatMap_getElem?_const _ cols _ _ r c hc r (List.getElem?_range hr)]
  · rw [List.getElem?_map, List.getElem?_range hc]; rfl
  · intro a _
    rw [List.length_map, List.length_range]

theorem index_decomp (cols rows k : Nat) (hk : k < rows * cols) :
    k / cols < rows ∧ k % cols < cols ∧ k / cols * cols + k % cols = k := by
  have hc : 0 < cols := by
    rcases Nat.eq_zero_or_pos cols with h | h
    · rw [h] at hk; simp at hk
    · exact h
  refine ⟨(Nat.div_lt_iff_lt_mul hc).mpr hk, Nat.mod_lt k hc, ?_⟩
  rw [Nat.mul_comm]; exact Nat.div_add_mod k cols

theorem lattice_far {norm : Vector2f F → F} (h : IsEuclidean norm) (o u v : Vector2f F)
    (s : F) (hs : 0 ≤ s) (hu : norm u = s) (hv : norm v = s)
    (huv : u.1 * v.1 + u.2 * v.2 = 0) (r c r' c' : Nat) (hne : ¬(r = r' ∧ c = c')) :
    s ≤ norm (latticePoint o u v r c - latticePoint o u v r' c') := by
  apply h.le_of_sq_le
  rw [latticePoint_sq h o u v s hu hv huv]
  have hss : 0 ≤ s * s := mul_nonneg hs hs
  have h1 : (0 : F) ≤ ((c : F) - (c' : F)) * ((c : F) - (c' : F)) := mul_self_nonneg _
  have h2 : (0 : F) ≤ ((r : F) - (r' : F)) * ((r : F) - (r' : F)) := mul_self_nonneg _
  have h3 : (1 : F) ≤ ((c : F) - (c' : F)) * ((c : F) - (c' : F)) +
      ((r : F) - (r' : F)) * ((r : F) - (r' : F)) := by
    by_cases hc : c = c'
    · have hr : r ≠ r' := fun e => hne ⟨e, hc⟩
      have := natCast_sub_sq_ge_one (F := F) r r' hr
      linarith
    · have := natCast_sub_sq_ge_one (F := F) c c' hc
      linarith
  nlinarith

theorem lattice_near {norm : Vector2f F → F} (h : IsEuclidean norm) (o u v : Vector2f F)
    (s : F) (hs : 0 ≤ s) (hu : norm u = s) (hv : norm v = s)
    (huv : u.1 * v.1 + u.2 * v.2 = 0) (cols rows : Nat) (hn : 2 ≤ rows * cols)
    (r c : Nat) (hr : r < rows) (hc : c < cols) :
    ∃ r' c', r' < rows ∧ c' < cols ∧ ¬(r = r' ∧ c = c') ∧
      norm (latticePoint o u v r c - latticePoint o u v r' c') = s := by
  have key : ∀ r' c' : Nat,
      ((c : F) - (c' : F)) * ((c : F) - (c' : F)) +
        ((r : F) - (r' : F)) * ((r : F) - (r' : F)) = 1 →
      norm (latticePoint o u v r c - latticePoint o u v r' c') = s := by
    intro r' c' h1
    apply h.eq_of_sq_eq _ s hs
    rw [latticePoint_sq h o u v s hu hv huv, h1, one_mul]
  by_cases hc2 : 2 ≤ cols
  · by_cases hlast : c + 1 < cols
    · refine ⟨r, c + 1, hr, hlast, by omega, key r (c + 1) ?_⟩
      push_cast; ring
    · refine ⟨r, c - 1, hr, by omega, by omega, key r (c - 1) ?_⟩
      have : ((c - 1 : Nat) : F) = (c : F) - 1 := by
        rw [Nat.cast_sub (by omega)]; simp
      rw [this]; ring
  · have hcols : cols = 1 := by omega
    have hrows : 2 ≤ rows := by rw [hcols] at hn; omega
    by_cases hlast : r + 1 < rows
    · refine ⟨r + 1, c, hlast, hc, by omega, key (r + 1) c ?_⟩
      push_cast; ring
    · refine ⟨r - 1, c, by omega, hc, by omega, key (r - 1) c ?_⟩
      have : ((r - 1 : Nat) : F) = (r : F) - 1 := by
        rw [Nat.cast_sub (by omega)]; simp
      rw [this]; ring

theorem jittered_access {norm : Vector2f F → F} (o u v : Vector2f F) (j : F)
    (cols rows : Nat) (points : List (Vector2f F))
    (hjit : List.Forall₂ (fun p l => norm (p - l) ≤ j) points (gridPoints o u v cols rows))
    (k : Nat) (p : Vector2f F) (hp : points[k]? = some p) :
    k < rows * cols ∧ norm (p - latticePoint o u v (k / cols) (k % cols)) ≤ j := by
  obtain ⟨hlen, hget⟩ := List.forall₂_iff_get.mp hjit
  obtain ⟨hk, hpk⟩ := List.getElem?_eq_some.mp hp
  have hk2 : k < (gridPoints o u v cols rows).length := by rw [← hlen]; exact hk
  have hk3 : k < rows * cols := by rw [← gridPoints_length o u v cols rows]; exact hk2
  obtain ⟨hr, hc, hd⟩ := index_decomp cols rows k hk3
  refine ⟨hk3, ?_⟩
  have hl := gridPoints_getElem? o u v cols rows (k / cols) (k % cols) hr hc
  rw [hd] at hl
  obtain ⟨_, hl2⟩ := List.getElem?_eq_some.mp hl
  have := hget k hk hk2
  simp only [List.get_eq_getElem] at this
  rw [hpk, hl2] at this
  exact this

/-- Exact distances on a jittered regular grid: every point is within `j` of its lattice
position, the lattice has orthogonal steps of length `s`. Two different points are at
least `s - 2j` apart, and every point has another point within `s + 2j`. -/
theorem jittered_grid_pairs {len : Vector2f F → F} (h : IsEuclidean len)
    (o u v : Vector2f F) (s j : F) (hs : 0 ≤ s) (hu : len u = s) (hv : len v = s)
    (huv : u.1 * v.1 + u.2 * v.2 = 0) (cols rows : Nat) (hn : 2 ≤ rows * cols)
    (points : List (Vector2f F))
    (hjit : List.Forall₂ (fun p l => len (p - l) ≤ j) points (gridPoints o u v cols rows)) :
    (∀ p ∈ points.enum, ∀ q ∈ points.enum, q.1 ≠ p.1 → s - 2 * j ≤ len (p.2 - q.2)) ∧
    (∀ p ∈ points.enum, ∃ q ∈ points.enum, q.1 ≠ p.1 ∧ len (p.2 - q.2) ≤ s + 2 * j) := by
  have hlen : points.length = rows * cols := by
    rw [hjit.length_eq, gridPoints_length]
  constructor
  · intro p hp q hq hne
    obtain ⟨-, hpj⟩ := jittered_access o u v j cols rows points hjit p.1 p.2
      (List.mem_enum_iff_getElem?.mp hp)
    obtain ⟨-, hqj⟩ := jittered_access o u v j cols rows points hjit q.1 q.2
      (List.mem_enum_iff_getElem?.mp hq)
    have hfar := lattice_far h o u v s hs hu hv huv (p.1 / cols) (p.1 % cols)
      (q.1 / cols) (q.1 % cols) (by
        rintro ⟨e1, e2⟩
        apply hne
        rw [← Nat.div_add_mod q.1 cols, ← Nat.div_add_mod p.1 cols, e1, e2])
    have := (h.jitter_bounds p.2 q.2 (latticePoint o u v (p.1 / cols) (p.1 % cols))
      (latticePoint o u v (q.1 / cols) (q.1 % cols))).1
    linarith
  · intro p hp
    obtain ⟨hk, hpj⟩ := jittered_access o u v j cols rows points hjit p.1 p.2
      (List.mem_enum_iff_getElem?.mp hp)
    obtain ⟨hr, hc, hd⟩ := index_decomp cols rows p.1 hk
    obtain ⟨r', c', hr', hc', hne, hnear⟩ := lattice_near h o u v s hs hu hv huv cols rows hn
      (p.1 / cols) (p.1 % cols) hr hc
    have hk' : r' * cols + c' < points.length := by
      rw [hlen]
      calc r' * cols + c' < r' * cols + cols := by omega
        _ = (r' + 1) * cols := by ring
        _ ≤ rows * cols := Nat.mul_le_mul_right cols hr'
    have hdiv : (r' * cols + c') / cols = r' := by
      rw [Nat.add_comm, Nat.add_mul_div_right _ _ (by omega), Nat.div_eq_of_lt hc',
        Nat.zero_add]
    have hmod : (r' * cols + c') % cols = c' := by
      rw [Nat.add_comm, Nat.add_mul_mod_self_right, Nat.mod_eq_of_lt hc']
    refine ⟨(r' * cols + c', points[r' * cols + c']), ?_, ?_, ?_⟩
    · exact List.mem_enum_iff_getElem?.mpr (List.getElem?_eq_getElem hk')
    · intro e
      apply hne
      simp only at e
      rw [← e, hdiv, hmod]
      exact ⟨rfl, rfl⟩
    · obtain ⟨-, hqj⟩ := jittered_access o u v j cols rows points hjit (r' * cols + c')
        points[r' * cols + c'] (List.getElem?_eq_getElem hk')
      rw [hdiv, hmod] at hqj
      have := (h.jitter_bounds p.2 points[r' * cols + c']
        (latticePoint o u v (p.1 / cols) (p.1 % cols)) (latticePoint o u v r' c')).2
      simp only
      linarith

theorem mem_of_mem_enum {α : Type} (l : List α) (p : Nat × α) (hp : p ∈ l.enum) : p.2 ∈ l := by
  obtain ⟨h, e⟩ := List.getElem?_eq_some.mp (List.mem_enum_iff_getElem?.mp hp)
  rw [← e]
  exact List.getElem_mem h

end GridLemmas

section GridNormLemmas
variable {F : Type} [LinearOrderedField F]

theorem IsEuclidean.norm_axis_snd {norm : Vector2f F → F} (h : IsEuclidean norm) (b : F) :
    norm (0, b) = |b| := by
  obtain ⟨h0, h1⟩ := h (0, b)
  have h2 : norm (0, b) * norm (0, b) = |b| * |b| := by
    rw [h1, abs_mul_abs_self]; simp
  exact (mul_self_inj h0 (abs_nonneg b)).mp h2

/-- The exact Euclidean length meets the contract `IsExactOnIntegers`. -/
theorem IsEuclidean.isExactOnIntegers {norm : Vector2f F → F} (h : IsEuclidean norm) :
    IsExactOnIntegers norm := by
  intro a b _ _
  refine ⟨?_, ?_, ?_, ?_⟩
  · rw [h.norm_axis, Int.cast_abs]
  · rw [h.norm_axis_snd, Int.cast_abs]
  · apply h.le_of_sq_le
    rw [Int.cast_abs, abs_mul_abs_self]
    simp only
    nlinarith [mul_self_nonneg (b : F)]
  · apply h.le_of_sq_le
    rw [Int.cast_abs, abs_mul_abs_self]
    simp only
    nlinarith [mul_self_nonneg (a : F)]

/-- Every position of a grid with at least two points has a neighbour in its row or in
its column. -/
theorem grid_neighbour (cols rows : Nat) (hn : 2 ≤ rows * cols) (r c : Nat) (hr : r < rows)
    (hc : c < cols) :
    ∃ r' c', r' < rows ∧ c' < cols ∧
      ((r' = r ∧ (c' = c + 1 ∨ c' + 1 = c)) ∨ (c' = c ∧ (r' = r + 1 ∨ r' + 1 = r))) := by
  by_cases hc2 : 2 ≤ cols
  · by_cases hlast : c + 1 < cols
    · exact ⟨r, c + 1, hr, hlast, Or.inl ⟨rfl, Or.inl rfl⟩⟩
    · exact ⟨r, c - 1, hr, by omega, Or.inl ⟨rfl, Or.inr (by omega)⟩⟩
  · have hcols : cols = 1 := by omega
    have hrows : 2 ≤ rows := by rw [hcols] at hn; omega
    by_cases hlast : r + 1 < rows
    · exact ⟨r + 1, c, hlast, hc, Or.inr ⟨rfl, Or.inl rfl⟩⟩
    · exact ⟨r - 1, c, by omega, hc, Or.inr ⟨rfl, Or.inr (by omega)⟩⟩

/-- The point of index `k` of the exact lattice. -/
theorem modelPoints_enum (cx cy size : Int) (p : Nat × Vector2f F)
    (hp : p ∈ (modelPoints cx cy size : List (Vector2f F)).enum) :
    p.1 < cy.toNat * cx.toNat ∧
      p.2 = (((((((p.1 % cx.toNat : Nat) : Int) + 1) * size : Int) : F)),
        ((((((p.1 / cx.toNat : Nat) : Int) + 1) * size : Int) : F))) := by
  have hp' := List.mem_enum_iff_getElem?.mp hp
  obtain ⟨hk, hpk⟩ := List.getElem?_eq_some.mp hp'
  rw [modelPoints_length] at hk
  refine ⟨hk, ?_⟩
  obtain ⟨hr, hc, hd⟩ := index_decomp cx.toNat cy.toNat p.1 hk
  have := modelPoints_getElem? (F := F) cx cy size _ _ hr hc
  rw [hd, hp'] at this
  exact Option.some.inj this

/-- Both estimators on the exact lattice of the pattern generator, for a computed distance
that meets the contract `IsExactOnIntegers` and coordinates of at most 2^24. -/
theorem modelPoints_estimators (norm : Vector2f F → F) (hN : IsExactOnIntegers norm)
    (cx cy size : Int) (hx : 1 ≤ cx) (hy : 1 ≤ cy) (hn : 2 ≤ cx * cy) (hs : 1 ≤ size)
    (hbx : cx * size ≤ 16777216) (hby : cy * size ≤ 16777216) :
    estimateCheckerBoardSize norm (modelPoints cx cy size) = (size : F) ∧
    getMinDistance norm (modelPoints cx cy size) = (size : F) := by
  have hn' : 2 ≤ cy.toNat * cx.toNat := by
    have h1 : ((cy.toNat * cx.toNat : Nat) : Int) = cx * cy := by
      push_cast
      rw [Int.toNat_of_nonneg (by omega), Int.toNat_of_nonneg (by omega)]
      ring
    omega
  have hlt : (size : F) < FLT_MAX := by
    have h0 : size ≤ 16777216 := by nlinarith
    have h1 : (size : F) ≤ ((16777216 : Int) : F) := by exact_mod_cast h0
    have h2 : (((16777216 : Int) : F)) < FLT_MAX := by
      unfold FLT_MAX
      norm_num
    exact lt_of_le_of_lt h1 h2
  -- coordinates of the difference of two lattice points, as integers
  have hdiff : ∀ p q : Nat × Vector2f F,
      p ∈ (modelPoints cx cy size : List (Vector2f F)).enum →
      q ∈ (modelPoints cx cy size : List (Vector2f F)).enum →
      p.2 - q.2 =
        ((((((p.1 % cx.toNat : Nat) : Int) - ((q.1 % cx.toNat : Nat) : Int)) * size : Int) : F),
         (((((p.1 / cx.toNat : Nat) : Int) - ((q.1 / cx.toNat : Nat) : Int)) * size : Int) : F)) ∧
      |(((p.1 % cx.toNat : Nat) : Int) - ((q.1 % cx.toNat : Nat) : Int)) * size| ≤ 16777216 ∧
      |(((p.1 / cx.toNat : Nat) : Int) - ((q.1 / cx.toNat : Nat) : Int)) * size| ≤ 16777216 := by
    intro p q hp hq
    obtain ⟨hpk, hpv⟩ := modelPoints_enum cx cy size p hp
    obtain ⟨hqk, hqv⟩ := modelPoints_enum cx cy size q hq
    obtain ⟨hr, hc, -⟩ := index_decomp cx.toNat cy.toNat p.1 hpk
    obtain ⟨hr', hc', -⟩ := index_decomp cx.toNat cy.toNat q.1 hqk
    rw [hpv, hqv]
    generalize p.1 / cx.toNat = r at hr ⊢
    generalize p.1 % cx.toNat = c at hc ⊢
    generalize q.1 / cx.toNat = r' at hr' ⊢
    generalize q.1 % cx.toNat = c' at hc' ⊢
    refine ⟨?_, ?_, ?_⟩
    · ext <;> simp only [Prod.fst_sub, Prod.snd_sub] <;> push_cast <;> ring
    · rw [abs_mul, abs_of_nonneg (by omega : (0 : Int) ≤ size)]
      have h1 : |(c : Int) - (c' : Int)| ≤ cx := by
        rw [abs_le]; constructor <;> omega
      exact (mul_le_mul_of_nonneg_right h1 (by omega)).trans hbx
    · rw [abs_mul, abs_of_nonneg (by omega : (0 : Int) ≤ size)]
      have h1 : |(r : Int) - (r' : Int)| ≤ cy := by
        rw [abs_le]; constructor <;> omega
      exact (mul_le_mul_of_nonneg_right h1 (by omega)).trans hby
  have hlen : (modelPoints cx cy size : List (Vector2f F)).length = cy.toNat * cx.toNat :=
    modelPoints_length cx cy size
  obtain ⟨⟨a1, a2⟩, b1, b2⟩ := estimators_between norm (modelPoints cx cy size)
    (by rw [hlen]; exact hn') (size : F) (size : F) hlt
    (by
      intro p hp q hq hne
      obtain ⟨hd, ha, hb⟩ := hdiff p q hp hq
      obtain ⟨-, -, n1, n2⟩ := hN _ _ ha hb
      rw [hd]
      by_cases hc : p.1 % cx.toNat = q.1 % cx.toNat
      · have hr : p.1 / cx.toNat ≠ q.1 / cx.toNat := by
          intro e
          apply hne
          rw [← Nat.div_add_mod q.1 cx.toNat, ← Nat.div_add_mod p.1 cx.toNat, e, hc]
        refine le_trans ?_ n2
        have : size ≤ |(((p.1 / cx.toNat : Nat) : Int) - ((q.1 / cx.toNat : Nat) : Int)) * size| := by
          rw [abs_mul, abs_of_nonneg (by omega : (0 : Int) ≤ size)]
          have h1 : 1 ≤ |((p.1 / cx.toNat : Nat) : Int) - ((q.1 / cx.toNat : Nat) : Int)| :=
            Int.one_le_abs (fun e => hr (by exact_mod_cast sub_eq_zero.mp e))
          nlinarith
        exact_mod_cast this
      · refine le_trans ?_ n1
        have : size ≤ |(((p.1 % cx.toNat : Nat) : Int) - ((q.1 % cx.toNat : Nat) : Int)) * size| := by
          rw [abs_mul, abs_of_nonneg (by omega : (0 : Int) ≤ size)]
          have h1 : 1 ≤ |((p.1 % cx.toNat : Nat) : Int) - ((q.1 % cx.toNat : Nat) : Int)| :=
            Int.one_le_abs (fun e => hc (by exact_mod_cast sub_eq_zero.mp e))
          nlinarith
        exact_mod_cast this)
    (by
      intro p hp
      obtain ⟨hpk, -⟩ := modelPoints_enum cx cy size p hp
      obtain ⟨hr, hc, hd⟩ := index_decomp cx.toNat cy.toNat p.1 hpk
      obtain ⟨r', c', hr', hc', hnb⟩ := grid_neighbour cx.toNat cy.toNat hn' _ _ hr hc
      have hk' : r' * cx.toNat + c' < (modelPoints cx cy size : List (Vector2f F)).length := by
        rw [hlen]
        calc r' * cx.toNat + c' < r' * cx.toNat + cx.toNat := by omega
          _ = (r' + 1) * cx.toNat := by ring
          _ ≤ cy.toNat * cx.toNat := Nat.mul_le_mul_right _ hr'
      have hdiv : (r' * cx.toNat + c') / cx.toNat = r' := by
        rw [Nat.add_comm, Nat.add_mul_div_right _ _ (by omega), Nat.div_eq_of_lt hc',
          Nat.zero_add]
      have hmod : (r' * cx.toNat + c') % cx.toNat = c' := by
        rw [Nat.add_comm, Nat.add_mul_mod_self_right, Nat.mod_eq_of_lt hc']
      have hq : ((r' * cx.toNat + c', (modelPoints cx cy size : List (Vector2f F))[r' * cx.toNat + c']) :
          Nat × Vector2f F) ∈ (modelPoints cx cy size : List (Vector2f F)).enum :=
        List.mem_enum_iff_getElem?.mpr (List.getElem?_eq_getElem hk')
      refine ⟨_, hq, ?_, ?_⟩
      · intro e
        simp only at e
        have e1 : r' = p.1 / cx.toNat := by rw [← e, hdiv]
        have e2 : c' = p.1 % cx.toNat := by rw [← e, hmod]
        omega
      · obtain ⟨hdf, ha, hb⟩ := hdiff p _ hp hq
        simp only [hdiv, hmod] at hdf ha hb
        obtain ⟨n1, n2, -, -⟩ := hN _ _ ha hb
        simp only
        rw [hdf]
        rcases hnb with ⟨e1, e2⟩ | ⟨e1, e2⟩
        · have z : ((p.1 / cx.toNat : Nat) : Int) - (r' : Int) = 0 := by omega
          rw [z, zero_mul, Int.cast_zero, n1]
          have : |(((p.1 % cx.toNat : Nat) : Int) - (c' : Int)) * size| = size := by
            rw [abs_mul, abs_of_nonneg (by omega : (0 : Int) ≤ size)]
            have h1 : |((p.1 % cx.toNat : Nat) : Int) - (c' : Int)| = 1 := by
              rcases e2 with e2 | e2
              · rw [abs_of_nonpos (by omega)]; omega
              · rw [abs_of_nonneg (by omega)]; omega
            rw [h1, one_mul]
          rw [this]
        · have z : ((p.1 % cx.toNat : Nat) : Int) - (c' : Int) = 0 := by omega
          rw [z, zero_mul, Int.cast_zero, n2]
          have : |(((p.1 / cx.toNat : Nat) : Int) - (r' : Int)) * size| = size := by
            rw [abs_mul, abs_of_nonneg (by omega : (0 : Int) ≤ size)]
            have h1 : |((p.1 / cx.toNat : Nat) : Int) - (r' : Int)| = 1 := by
              rcases e2 with e2 | e2
              · rw [abs_of_nonpos (by omega)]; omega
              · rw [abs_of_nonneg (by omega)]; omega
            rw [h1, one_mul]
          rw [this])
  constructor <;> exact le_antisymm ‹_› ‹_›

end GridNormLemmas


section WhitePointLemmas

variable {F : Type} [LinearOrderedField F]

variable [FloorRing F]

end WhitePointLemmas

section EstimatorLemmas

variable {F : Type} [LinearOrderedField F]

theorem getMinDistance_lt_two (norm : Vector2f F → F) (points : List (Vector2f F))
    (hn : points.length < 2) : getMinDistance norm points = FLT_MAX := by
  match points, hn with
  | [], _ => rfl
  | [p], _ => simp [getMinDistance, scanOthers, scanStep, List.enum, List.enumFrom]

theorem nearestNeighbourDistance_mem_pairwise (norm : Vector2f F → F)
    (points : List (Vector2f F)) (hn : 2 ≤ points.length) {d : F}
    (hd : d ∈ nearestNeighbourDistances norm points) : d ∈ pairwiseDistances norm points := by
  obtain ⟨p, hp, rfl⟩ := List.mem_map.mp hd
  exact List.mem_flatMap.mpr ⟨p, hp, nearestNeighbourDistance_mem norm points hn p.1 p.2⟩

/-- When some pair of points is closer than `FLT_MAX`, the vector `m_d` of
`estimateCheckerBoardSize` is not empty. -/
theorem closestDistances_ne_nil (norm : Vector2f F → F) (points : List (Vector2f F))
    (h : getMinDistance norm points < FLT_MAX) :
    2 ≤ points.length ∧ closestDistances norm points ≠ [] := by
  have hn : 2 ≤ points.length := by
    by_contra hlt
    rw [getMinDistance_lt_two norm points (by omega)] at h
    exact lt_irrefl _ h
  refine ⟨hn, ?_⟩
  rw [getMinDistance_eq] at h
  rcases foldl_min_mem (pairwiseDistances norm points) FLT_MAX with he | hmem
  · rw [he] at h; exact absurd h (lt_irrefl _)
  · obtain ⟨p, hp, hd⟩ := List.mem_flatMap.mp hmem
    have hle := nearestNeighbourDistance_le norm points p.1 p.2 hd
    have hin : nearestNeighbourDistance norm points p.1 p.2 ∈ closestDistances norm points := by
      rw [closestDistances_eq_filter norm points hn, List.mem_filter]
      exact ⟨List.mem_map.mpr ⟨p, hp, rfl⟩, decide_eq_true (lt_of_le_of_lt hle h)⟩
    exact List.ne_nil_of_mem hin

/-- Lower bounds on all distances between different points carry over to
`estimateCheckerBoardSize` when its vector `m_d` is not empty. -/
theorem estimateCheckerBoardSize_ge (norm : Vector2f F → F) (points : List (Vector2f F))
    (hn : 2 ≤ points.length) (hne : closestDistances norm points ≠ []) (lo : F)
    (hlo : ∀ d ∈ pairwiseDistances norm points, lo ≤ d) :
    lo ≤ estimateCheckerBoardSize norm points := by
  rw [estimateCheckerBoardSize_eq norm points hn, if_neg hne]
  have key : ∀ d ∈ closestDistances norm points, d ∈ nearestNeighbourDistances norm points := by
    intro d hd
    rw [closestDistances_eq_filter norm points hn] at hd
    exact (List.mem_filter.mp hd).1
  exact hlo _ (nearestNeighbourDistance_mem_pairwise norm points hn
    (key _ (median_mem _ hne)))

theorem isolationFilter_eq_filter (norm : Vector2f F → F) (c : F)
    (cfi_out : List (Vector2f F)) :
    isolationFilter norm c cfi_out =
      (cfi_out.enum.filter (fun q => decide (IsIsolated norm c cfi_out q.1 q.2))).map Prod.snd := by
  unfold isolationFilter
  rw [foldl_push_filter, List.nil_append]
  refine congrArg (List.map Prod.snd) (List.filter_congr fun q _ => ?_)
  rw [Bool.eq_iff_iff, isolationFlag_iff, decide_eq_true_iff]
  rfl

/-- Two survivors of the isolation filter at different positions are at distance at least
`c` from each other. -/
theorem isolationFilter_pairwise (norm : Vector2f F → F) (c : F)
    (cfi_out : List (Vector2f F)) :
    ∀ p ∈ (isolationFilter norm c cfi_out).enum, ∀ q ∈ (isolationFilter norm c cfi_out).enum,
      q.1 ≠ p.1 → c ≤ norm (p.2 - q.2) := by
  rw [isolationFilter_eq_filter]
  generalize hS : cfi_out.enum.filter
    (fun q => decide (IsIsolated norm c cfi_out q.1 q.2)) = S
  have hnodup : (S.map Prod.fst).Nodup := by
    rw [← hS]
    refine List.Nodup.sublist ((List.filter_sublist _).map Prod.fst) ?_
    rw [List.enum_map_fst]
    exact List.nodup_range _
  intro p hp q hq hne
  rw [List.mem_enum_iff_getElem?, List.getElem?_map] at hp hq
  obtain ⟨sp, hsp, hsp2⟩ := Option.map_eq_some'.mp hp
  obtain ⟨sq, hsq, hsq2⟩ := Option.map_eq_some'.mp hq
  obtain ⟨hip, hgp⟩ := List.getElem?_eq_some.mp hsp
  obtain ⟨hiq, hgq⟩ := List.getElem?_eq_some.mp hsq
  have hmp : sp ∈ S := hgp ▸ List.getElem_mem hip
  have hmq : sq ∈ S := hgq ▸ List.getElem_mem hiq
  rw [← hS, List.mem_filter] at hmp hmq
  have hfst : sq.1 ≠ sp.1 := by
    intro he
    apply hne
    have hq1 : q.1 < (S.map Prod.fst).length := by rw [List.length_map]; exact hiq
    have hp1 : p.1 < (S.map Prod.fst).length := by rw [List.length_map]; exact hip
    have h1 : (S.map Prod.fst)[q.1] = (S.map Prod.fst)[p.1] := by
      rw [List.getElem_map, List.getElem_map, hgp, hgq]; exact he
    exact (hnodup.getElem_inj_iff).mp h1
  have hiso : IsIsolated norm c cfi_out sp.1 sp.2 := of_decide_eq_true hmp.2
  rw [← hsp2, ← hsq2]
  exact hiso sq hmq.1 hfst

/-- When no seed run reports a residual below `FLT_MAX`, nothing is ever copied into the
buffer `x`. -/
theorem rotationSearch_unwritten (run : Nat → SeedRun F)
    (h : ∀ i, i < nSample → FLT_MAX ≤ (run i).output_error) :
    (rotationSearch run).x = none := by
  obtain ⟨-, -, hx⟩ := rotationSearch_inv run nSample
  rcases hx with ⟨h1, -⟩ | ⟨k, hk, -, -, h3, -⟩
  · exact h1
  · exact absurd h3 (not_lt.mpr (h k hk))

/-- A model of a single point: the loop of `estimateLengthOfCheckers` does not run,
`closest` keeps the value -1 and the read `corners_model[closest]` is out of range. -/
theorem estimateLengthOfCheckers_single (norm : Vector2f F → F) (p p0 p1 : Vector2f F) :
    estimateLengthOfCheckers norm [p] p0 p1 = none := by
  simp [estimateLengthOfCheckers, readModel, List.enum, List.enumFrom]

theorem estimateLengthOfCheckers_nil (norm : Vector2f F → F) (p0 p1 : Vector2f F) :
    estimateLengthOfCheckers norm [] p0 p1 = some (-1, p0, p1) := by
  simp [estimateLengthOfCheckers]

theorem mem_pairwiseDistances (norm : Vector2f F → F) (points : List (Vector2f F)) (d : F) :
    d ∈ pairwiseDistances norm points ↔
      ∃ (i j : Nat) (p q : Vector2f F), i ≠ j ∧ points[i]? = some p ∧ points[j]? = some q ∧ norm (p - q) = d := by
  unfold pairwiseDistances
  rw [List.mem_flatMap]
  constructor
  · rintro ⟨p, hp, hd⟩
    obtain ⟨q, hq, hne, he⟩ := (mem_distancesToOthers norm points p.1 p.2 d).mp hd
    exact ⟨p.1, q.1, p.2, q.2, fun e => hne e.symm, List.mem_enum_iff_getElem?.mp hp,
      List.mem_enum_iff_getElem?.mp hq, he⟩
  · rintro ⟨i, j, p, q, hne, hp, hq, he⟩
    exact ⟨(i, p), List.mem_enum_iff_getElem?.mpr hp,
      (mem_distancesToOthers norm points i p d).mpr
        ⟨(j, q), List.mem_enum_iff_getElem?.mpr hq, fun e => hne e.symm, he⟩⟩

/-- Stability of the minimum distance: when every distance of the set `Q` is within `ε`
of `k` times the corresponding distance of the set `P`, so is the minimum. -/
theorem getMinDistance_within (norm : Vector2f F → F) (P Q : List (Vector2f F)) (k ε : F)
    (hk : 0 < k) (hlen : Q.length = P.length)
    (hclose : ∀ (i j : Nat) (p q p' q' : Vector2f F), i ≠ j → P[i]? = some p → P[j]? = some q →
      Q[i]? = some p' → Q[j]? = some q' → |norm (p' - q') - k * norm (p - q)| ≤ ε)
    (h1 : getMinDistance norm P < FLT_MAX)
    (h2 : k * getMinDistance norm P + ε < FLT_MAX) :
    |getMinDistance norm Q - k * getMinDistance norm P| ≤ ε := by
  rw [getMinDistance_eq norm Q]
  rw [getMinDistance_eq norm P] at h1 h2 ⊢
  have hmem : (pairwiseDistances norm P).foldl min FLT_MAX ∈ pairwiseDistances norm P := by
    rcases foldl_min_mem (pairwiseDistances norm P) FLT_MAX with h | h
    · exact absurd h (ne_of_lt h1)
    · exact h
  obtain ⟨a, b, pa, pb, hab, hpa, hpb, hm⟩ := (mem_pairwiseDistances norm P _).mp hmem
  have ha : a < Q.length := by rw [hlen]; exact (List.getElem?_eq_some.mp hpa).1
  have hb : b < Q.length := by rw [hlen]; exact (List.getElem?_eq_some.mp hpb).1
  have hupper : (pairwiseDistances norm Q).foldl min FLT_MAX ≤
      k * (pairwiseDistances norm P).foldl min FLT_MAX + ε := by
    have hin : norm (Q[a] - Q[b]) ∈ pairwiseDistances norm Q :=
      (mem_pairwiseDistances norm Q _).mpr ⟨a, b, Q[a], Q[b], hab,
        List.getElem?_eq_getElem ha, List.getElem?_eq_getElem hb, rfl⟩
    have hc := hclose a b pa pb Q[a] Q[b] hab hpa hpb (List.getElem?_eq_getElem ha)
      (List.getElem?_eq_getElem hb)
    rw [hm] at hc
    have := foldl_min_le_mem _ FLT_MAX hin
    have := (abs_le.mp hc).2
    linarith
  have hlower : k * (pairwiseDistances norm P).foldl min FLT_MAX - ε ≤
      (pairwiseDistances norm Q).foldl min FLT_MAX := by
    rcases foldl_min_mem (pairwiseDistances norm Q) FLT_MAX with h | h
    · rw [h]; linarith
    · obtain ⟨c, d, qc, qd, hcd, hqc, hqd, hM⟩ := (mem_pairwiseDistances norm Q _).mp h
      have hc' : c < P.length := by rw [← hlen]; exact (List.getElem?_eq_some.mp hqc).1
      have hd' : d < P.length := by rw [← hlen]; exact (List.getElem?_eq_some.mp hqd).1
      have hin : norm (P[c] - P[d]) ∈ pairwiseDistances norm P :=
        (mem_pairwiseDistances norm P _).mpr ⟨c, d, P[c], P[d], hcd,
          List.getElem?_eq_getElem hc', List.getElem?_eq_getElem hd', rfl⟩
      have hc := hclose c d P[c] P[d] qc qd hcd (List.getElem?_eq_getElem hc')
        (List.getElem?_eq_getElem hd') hqc hqd
      rw [hM] at hc
      have h3 := foldl_min_le_mem _ FLT_MAX hin
      have h4 := (abs_le.mp hc).1
      have h5 := mul_le_mul_of_nonneg_left h3 hk.le
      linarith
  rw [abs_le]
  constructor <;> linarith

theorem scalePoints_getElem? (k : F) (points : List (Vector2f F)) (i : Nat) :
    (scalePoints k points)[i]? = (points[i]?).map (fun p => (k * p.1, k * p.2)) := by
  unfold scalePoints
  rw [List.getElem?_map]

end EstimatorLemmas

section WhitePointColorLemmas

variable {F : Type} [LinearOrderedField F] [FloorRing F]

end WhitePointColorLemmas

section StereoLemmas

/-- Invariant rule for a `for(int v = lo; v < hi; v++)` loop. -/
theorem foldl_intRange {β : Type} (f : β → Int → β) (lo hi : Int) (h : lo ≤ hi)
    (I : Int → β → Prop) (b0 : β) (h0 : I lo b0)
    (hstep : ∀ v b, lo ≤ v → v < hi → I v b → I (v + 1) (f b v)) :
    I hi ((intRange lo hi).foldl f b0) := by
  have key : ∀ n : Nat, lo + (n : Int) ≤ hi →
      I (lo + (n : Int)) ((intRange lo (lo + (n : Int))).foldl f b0) := by
    intro n
    induction n with
    | zero =>
      intro _
      rw [intRange_empty _ _ (by simp)]
      simpa using h0
    | succ n ih =>
      intro hn
      have e : lo + ((n + 1 : Nat) : Int) = lo + (n : Int) + 1 := by push_cast; ring
      rw [e, intRange_succ _ _ (by omega), List.foldl_append]
      exact hstep _ _ (by omega) (by push_cast at hn; omega) (ih (by push_cast at hn; omega))
  have e : lo + ((hi - lo).toNat : Int) = hi := by omega
  have := key (hi - lo).toNat (by omega)
  rwa [e] at this

theorem Image.ext_fields {F : Type} {a b : Image F} (hw : a.width = b.width)
    (hh : a.height = b.height) (hc : a.channels = b.channels)
    (hd : ∀ x y c, a.data x y c = b.data x y c) : a = b := by
  cases a; cases b
  simp only [Image.mk.injEq] at *
  exact ⟨hw, hh, hc, funext fun x => funext fun y => funext fun c => hd x y c⟩

theorem Image.write_eq_set {F : Type} (img : Image F) (x y c : Int) (v : F) (hx : 0 ≤ x)
    (hxw : x < img.width) (hy : 0 ≤ y) (hyh : y < img.height) (hc : 0 ≤ c)
    (hcc : c < img.channels) : img.write x y c v = some (img.set x y c v) := by
  unfold Image.write Image.set
  rw [if_pos ⟨hx, hxw, hy, hyh, hc, hcc⟩]

variable {F : Type} [LinearOrderedField F] [FloorRing F]

theorem truncToInt_zero : truncToInt (0 : F) = 0 := by
  simp [truncToInt]

theorem wrapInt_zero : wrapInt 0 = 0 := by
  decide

/-- The magnitude of a 32-bit difference does not depend on the order of its operands. -/
theorem abs_wrapInt_sub_comm (a b : Int) : |wrapInt (a - b)| = |wrapInt (b - a)| := by
  have h : wrapInt (a - b) = -wrapInt (b - a) ∨ wrapInt (a - b) = wrapInt (b - a) := by
    unfold wrapInt
    omega
  rcases h with h | h
  · rw [h, abs_neg]
  · rw [h]

/-- Where the exact difference has magnitude at most `INT_MAX`, the 32-bit evaluation of
`std::abs(a - b)` is the exact one. -/
theorem wrapInt_abs_of_le (z : Int) (h : |z| ≤ INT_MAX) : wrapInt |wrapInt z| = |z| := by
  obtain ⟨h1, h2⟩ := abs_le.mp h
  unfold INT_MAX at h h1 h2
  have e : wrapInt z = z := by unfold wrapInt; omega
  have h0 := abs_nonneg z
  rw [e]
  unfold wrapInt
  omega

/-- One pixel of `checkDisparity`. -/
theorem checkPixel_inv (L R : Image F) (t i j : Int) (st : Image F × Image F)
    (hw : L.width = R.width) (hh : L.height = R.height) (hcL : 2 ≤ L.channels)
    (hcR : 2 ≤ R.channels)
    (hi : 0 ≤ i) (hih : i < L.height) (hj : 0 ≤ j) (hjw : j < L.width)
    (hI : CheckInv L R t i j st) :
    ∃ st', checkPixel t st i j = some st' ∧ CheckInv L R t i (j + 1) st' := by
  obtain ⟨hL, hR, hd⟩ := hI
  have hnot : ¬(Visited L.width i j j i ∧ Mismatch L R t j i) := by
    rintro ⟨⟨-, -, -, h⟩, -⟩
    omega
  have hvis : ∀ x y, Visited L.width i (j + 1) x y ↔
      Visited L.width i j x y ∨ (x = j ∧ y = i) := by
    intro x y
    unfold Visited
    constructor
    · rintro ⟨h1, h2, h3, h4⟩
      by_cases he : x = j ∧ y = i
      · exact Or.inr he
      · exact Or.inl ⟨h1, h2, h3, by omega⟩
    · rintro (⟨h1, h2, h3, h4⟩ | ⟨rfl, rfl⟩)
      · exact ⟨h1, h2, h3, by omega⟩
      · exact ⟨hj, hjw, hi, Or.inr ⟨rfl, by omega⟩⟩
  have hcur0 := (hd j i 0).2 hnot
  unfold checkPixel
  simp only [hcur0.1, hcur0.2]
  by_cases hm : wrapInt |wrapInt (truncToInt (L.data j i 0) - truncToInt (R.data j i 0))| > t
  · obtain ⟨w1, e1, c1⟩ := hL
    obtain ⟨w2, e2, c2⟩ := hR
    rw [if_pos hm,
      Image.write_eq_set st.1 j i 0 0 hj (by omega) hi (by omega) (le_refl 0) (by omega)]
    simp only [Option.some_bind]
    rw [Image.write_eq_set (st.1.set j i 0 0) j i 1 (-1) hj (by simp only [Image.set]; omega)
      hi (by simp only [Image.set]; omega) (by decide) (by simp only [Image.set]; omega)]
    simp only [Option.some_bind]
    rw [Image.write_eq_set st.2 j i 0 0 hj (by omega) hi (by omega) (le_refl 0) (by omega)]
    simp only [Option.some_bind]
    rw [Image.write_eq_set (st.2.set j i 0 0) j i 1 (-1) hj (by simp only [Image.set]; omega)
      hi (by simp only [Image.set]; omega) (by decide) (by simp only [Image.set]; omega)]
    simp only [Option.map_some']
    refine ⟨_, rfl, ⟨w1, e1, c1⟩, ⟨w2, e2, c2⟩, fun x y c => ?_⟩
    by_cases he : x = j ∧ y = i
    · obtain ⟨rfl, rfl⟩ := he
      have hcur := (hd x y c).2 hnot
      constructor
      · intro _
        by_cases hc1 : c = 1
        · subst hc1; simp [Image.set, invalidated]
        · by_cases hc0 : c = 0
          · subst hc0; simp [Image.set, invalidated]
          · simp [Image.set, invalidated, hc0, hc1, hcur.1, hcur.2]
      · intro hn
        exact absurd ⟨(hvis x y).mpr (Or.inr ⟨rfl, rfl⟩), hm⟩ hn
    · have hset : ∀ im : Image F, ((im.set j i 0 0).set j i 1 (-1)).data x y c = im.data x y c := by
        intro im
        have : ¬(x = j ∧ y = i ∧ c = 1) := fun h => he ⟨h.1, h.2.1⟩
        have : ¬(x = j ∧ y = i ∧ c = 0) := fun h => he ⟨h.1, h.2.1⟩
        simp [Image.set, *]
      simp only [hset]
      constructor
      · rintro ⟨hv, hmis⟩
        rcases (hvis x y).mp hv with h | h
        · exact (hd x y c).1 ⟨h, hmis⟩
        · exact absurd h he
      · intro hn
        exact (hd x y c).2 (fun h => hn ⟨(hvis x y).mpr (Or.inl h.1), h.2⟩)
  · rw [if_neg hm]
    refine ⟨st, rfl, hL, hR, fun x y c => ⟨?_, ?_⟩⟩
    · rintro ⟨hv, hmis⟩
      rcases (hvis x y).mp hv with h | ⟨rfl, rfl⟩
      · exact (hd x y c).1 ⟨h, hmis⟩
      · exact absurd hmis hm
    · intro hn
      refine (hd x y c).2 (fun h => hn ⟨(hvis x y).mpr (Or.inl h.1), h.2⟩)

/-- Effect of `checkDisparity` on maps of equal sizes with at least two channels: no write
leaves a map, the mismatching pixels are set to `(0, -1)` in both maps and nothing else
changes. -/
theorem checkDisparity_spec (L R : Image F) (t : Int) (hw : L.width = R.width)
    (hh : L.height = R.height) (hcL : 2 ≤ L.channels) (hcR : 2 ≤ R.channels) :
    ∃ res, checkDisparity L R t = some res ∧ CheckInv L R t (max 0 L.height) 0 res := by
  have hinit : CheckInv L R t 0 0 (L, R) :=
    ⟨⟨rfl, rfl, rfl⟩, ⟨rfl, rfl, rfl⟩, fun x y c =>
      ⟨fun h => by obtain ⟨⟨h1, -, h3, h4⟩, -⟩ := h; omega, fun _ => ⟨rfl, rfl⟩⟩⟩
  unfold checkDisparity
  by_cases hH : 0 ≤ L.height
  · rw [max_eq_right hH]
    refine foldlM_intRange _ 0 L.height hH (fun i st => CheckInv L R t i 0 st) _ hinit ?_
    intro i st hi0 hi hI
    by_cases hW : 0 ≤ L.width
    · obtain ⟨st', hrun, hL, hR, hd⟩ := foldlM_intRange
        (fun st j => checkPixel t st i j) 0 L.width hW
        (fun j st => CheckInv L R t i j st) st hI
        (fun j st hj0 hj hI' => checkPixel_inv L R t i j st hw hh hcL hcR hi0 hi hj0 hj hI')
      refine ⟨st', hrun, hL, hR, fun x y c => ⟨fun h => (hd x y c).1 ⟨?_, h.2⟩,
        fun hn => (hd x y c).2 (fun h => hn ⟨?_, h.2⟩)⟩⟩
      · obtain ⟨h1, h2, h3, h4⟩ := h.1
        exact ⟨h1, h2, h3, by omega⟩
      · obtain ⟨h1, h2, h3, h4⟩ := h.1
        exact ⟨h1, h2, h3, by omega⟩
    · refine ⟨st, ?_, ?_⟩
      · show (intRange 0 L.width).foldlM (fun st j => checkPixel t st i j) st = some st
        rw [intRange_empty 0 L.width (by omega)]
        rfl
      · obtain ⟨hL, hR, hd⟩ := hI
        refine ⟨hL, hR, fun x y c => ⟨fun h => ?_, fun _ => (hd x y c).2 (fun h => ?_)⟩⟩
        · obtain ⟨⟨h1, h2, -, -⟩, -⟩ := h
          omega
        · obtain ⟨⟨h1, h2, -, -⟩, -⟩ := h
          omega
  · rw [intRange_empty 0 L.height (by omega), max_eq_left (by omega)]
    exact ⟨(L, R), rfl, hinit⟩

theorem visited_final (W H x y : Int) :
    Visited W (max 0 H) 0 x y ↔ 0 ≤ x ∧ x < W ∧ 0 ≤ y ∧ y < H := by
  unfold Visited
  rcases le_total 0 H with h | h
  · rw [max_eq_right h]
    constructor
    · rintro ⟨h1, h2, h3, h4⟩; exact ⟨h1, h2, h3, by omega⟩
    · rintro ⟨h1, h2, h3, h4⟩; exact ⟨h1, h2, h3, Or.inl h4⟩
  · rw [max_eq_left h]
    constructor
    · rintro ⟨h1, h2, h3, h4⟩; omega
    · rintro ⟨h1, h2, h3, h4⟩; omega

/-- After `checkDisparity` with a threshold `t >= 0` no pixel inside the maps fails the
consistency check. -/
theorem checkInv_consistent (L R : Image F) (t : Int) (ht : 0 ≤ t) (res : Image F × Image F)
    (hres : CheckInv L R t (max 0 L.height) 0 res) (x y : Int)
    (hx0 : 0 ≤ x) (hx : x < L.width) (hy0 : 0 ≤ y) (hy : y < L.height) :
    ¬ Mismatch res.1 res.2 t x y := by
  obtain ⟨-, -, hd⟩ := hres
  have hv : Visited L.width (max 0 L.height) 0 x y :=
    (visited_final _ _ x y).mpr ⟨hx0, hx, hy0, hy⟩
  unfold Mismatch
  by_cases hm : Mismatch L R t x y
  · obtain ⟨h1, h2⟩ := (hd x y 0).1 ⟨hv, hm⟩
    rw [h1, h2]
    simp only [invalidated, if_true, truncToInt_zero, sub_zero, wrapInt_zero, abs_zero]
    exact not_lt.mpr ht
  · obtain ⟨h1, h2⟩ := (hd x y 0).2 (fun h => hm h.2)
    rw [h1, h2]
    exact hm

/-- A call of `checkDisparity` on maps without a mismatching pixel changes nothing. -/
theorem checkDisparity_fixed (L R : Image F) (t : Int) (hw : L.width = R.width)
    (hh : L.height = R.height) (hcL : 2 ≤ L.channels) (hcR : 2 ≤ R.channels)
    (h : ∀ x y, 0 ≤ x → x < L.width → 0 ≤ y → y < L.height → ¬ Mismatch L R t x y) :
    checkDisparity L R t = some (L, R) := by
  obtain ⟨res, hrun, ⟨w1, e1, c1⟩, ⟨w2, e2, c2⟩, hd⟩ := checkDisparity_spec L R t hw hh hcL hcR
  have hn : ∀ x y, ¬(Visited L.width (max 0 L.height) 0 x y ∧ Mismatch L R t x y) := by
    rintro x y ⟨hv, hm⟩
    obtain ⟨h1, h2, h3, h4⟩ := (visited_final _ _ x y).mp hv
    exact h x y h1 h2 h3 h4 hm
  rw [hrun]
  exact congrArg some (Prod.ext
    (Image.ext_fields w1 e1 c1 (fun x y c => ((hd x y c).2 (hn x y)).1))
    (Image.ext_fields w2 e2 c2 (fun x y c => ((hd x y c).2 (hn x y)).2)))

/-- The second call made by `estimateStereo`, with the roles of the maps exchanged,
changes nothing. -/
theorem checkDisparity_second (L R : Image F) (t : Int) (hw : L.width = R.width)
    (hh : L.height = R.height) (hcL : 2 ≤ L.channels) (hcR : 2 ≤ R.channels) (ht : 0 ≤ t)
    (res : Image F × Image F) (hres : CheckInv L R t (max 0 L.height) 0 res) :
    checkDisparity res.2 res.1 t = some (res.2, res.1) := by
  obtain ⟨⟨w1, e1, c1⟩, ⟨w2, e2, c2⟩, -⟩ := id hres
  apply checkDisparity_fixed res.2 res.1 t (by omega) (by omega) (by omega) (by omega)
  intro x y hx0 hx hy0 hy hm
  refine checkInv_consistent L R t ht res hres x y hx0 (by omega) hy0 (by omega) ?_
  unfold Mismatch at hm ⊢
  rwa [abs_wrapInt_sub_comm]

theorem truncToInt_intCast (z : Int) : truncToInt (z : F) = z := by
  unfold truncToInt
  split
  · exact Int.floor_intCast z
  · exact Int.ceil_intCast z

theorem disparitiesInInt_leftTestMap : DisparitiesInInt leftTestMap := by
  intro x y _ _ _ _
  have e10 : truncToInt (10 : ℚ) = 10 := by
    rw [show (10 : ℚ) = ((10 : Int) : ℚ) from by norm_num, truncToInt_intCast]
  have e3 : truncToInt (3 : ℚ) = 3 := by
    rw [show (3 : ℚ) = ((3 : Int) : ℚ) from by norm_num, truncToInt_intCast]
  by_cases h : x = 0
  · simp only [leftTestMap, h, if_true, e10]; decide
  · simp only [leftTestMap, h, if_true, if_false, e3]; decide

theorem disparitiesInInt_rightTestMap : DisparitiesInInt rightTestMap := by
  intro x y _ _ _ _
  have e1 : truncToInt (1 : ℚ) = 1 := by
    rw [show (1 : ℚ) = ((1 : Int) : ℚ) from by norm_num, truncToInt_intCast]
  simp only [rightTestMap, e1]; decide

end StereoLemmas

section OrchestratorLemmas
variable {F : Type} [LinearOrderedField F]

/-- The rotation search when every run returns the same parameters with the same
residual below `FLT_MAX`. -/
theorem rotationSearch_const (run : Nat → SeedRun F) (a : F × F × F) (e : F)
    (he : e < FLT_MAX) (hrun : ∀ i, run i = { tmp := a, output_error := e }) :
    (rotationSearch run).x = some a := by
  obtain ⟨hle, -, hx⟩ := rotationSearch_inv run nSample
  rcases hx with ⟨-, h2⟩ | ⟨k, -, h1, -⟩
  · have := hle 0 (by decide)
    rw [h2, hrun 0] at this
    exact absurd he (not_lt.mpr this)
  · rw [hrun k] at h1
    exact h1

/-- The run of `findCheckerBoard` on a non-null image when fewer than 2 corners survive
the isolation filter: the spacing estimate is -1, and the generated model is handed to the
scale normalizer with the factor -1 / min_dist and then to ICP and the rotation search. -/
theorem findCheckerBoard_few {D : Type} (env : Collaborators F D) (norm : Vector2f F → F)
    (im : Image F) (corners_model : List (Vector2f F))
    (X Y : Int) (hx : 1 ≤ X) (hy : 1 ≤ Y)
    (hfew : (filteredCorners env norm (some im)).length < 2) :
    ∃ img_pattern : Image F,
      getCheckerBoardModel X Y 32 [] = some (img_pattern, generatedPoints X Y 32) ∧
      findCheckerBoard env norm (some im) corners_model X Y =
        registration env
          (env.applyScale (-1 / getMinDistance norm (generatedPoints X Y 32))
            (generatedPoints X Y 32))
          (filteredCorners env norm (some im))
          (env.getAll (some img_pattern) (generatedPoints X Y 32))
          (env.getAll (env.luminance (some im)) (filteredCorners env norm (some im))) := by
  obtain ⟨img_pattern, hgen, -⟩ := getCheckerBoardModel_spec (F := F) X Y 32 (by omega)
    (by omega) []
  rw [List.nil_append] at hgen
  refine ⟨img_pattern, hgen, ?_⟩
  have hsize : estimateCheckerBoardSize norm (filteredCorners env norm (some im)) = -1 := by
    unfold estimateCheckerBoardSize
    rw [if_pos hfew]
  unfold findCheckerBoard
  simp only [hgen, hsize]

end OrchestratorLemmas

section MainResults

variable {F : Type} [LinearOrderedField F]

/-- C1 (amended): for every point set of n >= 2 points whose nearest-neighbour distances
are all below FLT_MAX, estimateCheckerBoardSize returns the median of the n
nearest-neighbour distances, the value at index floor(n/2) of those distances sorted
ascending. -/
theorem estimateCheckerBoardSize_median (norm : Vector2f F → F)
    (points : List (Vector2f F)) (hn : 2 ≤ points.length)
    (hfin : ∀ d ∈ nearestNeighbourDistances norm points, d < FLT_MAX) :
    estimateCheckerBoardSize norm points = median (nearestNeighbourDistances norm points) := by
  have hc : closestDistances norm points = nearestNeighbourDistances norm points := by
    rw [closestDistances_eq_filter norm points hn, List.filter_eq_self]
    intro d hd
    exact decide_eq_true (hfin d hd)
  have hne : nearestNeighbourDistances norm points ≠ [] := by
    intro h
    have := nearestNeighbourDistances_length norm points
    rw [h] at this
    simp at this
    omega
  rw [estimateCheckerBoardSize_eq norm points hn, hc, if_neg hne]

/-- Witness for C1: three collinear points at abscissae 0, 1 and 3 under the Euclidean
norm. -/
theorem estimateCheckerBoardSize_median_witness :
    estimateCheckerBoardSize (fun v : Vector2f ℝ => Real.sqrt (v.1 * v.1 + v.2 * v.2))
        [(0, 0), (1, 0), (3, 0)] =
      median (nearestNeighbourDistances
        (fun v : Vector2f ℝ => Real.sqrt (v.1 * v.1 + v.2 * v.2)) [(0, 0), (1, 0), (3, 0)]) :=
  estimateCheckerBoardSize_median _ _ (by simp) (by
    simp [nearestNeighbourDistances, nearestNeighbourDistance, distancesToOthers,
      List.enum, List.enumFrom, sqrt_axis]
    norm_num [FLT_MAX])

/-- C1 (counterexample): the two points (-FLT_MAX, 0) and (FLT_MAX, 0) are 2 * FLT_MAX
apart, so the median of the nearest-neighbour distances is 2 * FLT_MAX, but neither
distance passes the test `closest < FLT_MAX` and the function returns 0. -/
theorem estimateCheckerBoardSize_median_counterexample :
    2 ≤ [((-FLT_MAX : ℝ), (0 : ℝ)), (FLT_MAX, 0)].length ∧
    estimateCheckerBoardSize (fun v : Vector2f ℝ => Real.sqrt (v.1 * v.1 + v.2 * v.2))
        [(-FLT_MAX, 0), (FLT_MAX, 0)] = 0 ∧
    median (nearestNeighbourDistances
        (fun v : Vector2f ℝ => Real.sqrt (v.1 * v.1 + v.2 * v.2))
        [(-FLT_MAX, 0), (FLT_MAX, 0)]) = 2 * FLT_MAX ∧
    estimateCheckerBoardSize (fun v : Vector2f ℝ => Real.sqrt (v.1 * v.1 + v.2 * v.2))
        [(-FLT_MAX, 0), (FLT_MAX, 0)] ≠
      median (nearestNeighbourDistances
        (fun v : Vector2f ℝ => Real.sqrt (v.1 * v.1 + v.2 * v.2))
        [(-FLT_MAX, 0), (FLT_MAX, 0)]) := by
  have h1 : estimateCheckerBoardSize
      (fun v : Vector2f ℝ => Real.sqrt (v.1 * v.1 + v.2 * v.2))
      [(-FLT_MAX, 0), (FLT_MAX, 0)] = 0 := by
    simp [estimateCheckerBoardSize, closestDistances, scanOthers, scanStep,
      List.enum, List.enumFrom, Real.sqrt_mul_self_eq_abs]
    norm_num [FLT_MAX, abs_of_nonneg, abs_of_nonpos]
  have h2 : median (nearestNeighbourDistances
      (fun v : Vector2f ℝ => Real.sqrt (v.1 * v.1 + v.2 * v.2))
      [(-FLT_MAX, 0), (FLT_MAX, 0)]) = 2 * FLT_MAX := by
    simp [median, nearestNeighbourDistances, nearestNeighbourDistance, distancesToOthers,
      List.enum, List.enumFrom, Real.sqrt_mul_self_eq_abs]
    norm_num [FLT_MAX, abs_of_nonneg, abs_of_nonpos]
  refine ⟨by simp, h1, h2, ?_⟩
  rw [h1, h2]
  norm_num [FLT_MAX]

/-- C6 (amended): for every regular rectangular grid of at least 2 points with spacing
s > 0 in which each point is displaced from its lattice position by a jitter of exact
Euclidean length at most j, with j < s/4, and for every tolerance eps such that the
distance the code computes between any two points of the set is within eps of their exact
Euclidean distance and s + 2j + eps is below FLT_MAX, estimateCheckerBoardSize returns a
value r with |r - s| <= 2j + eps. -/
theorem estimateCheckerBoardSize_jitter (norm len : Vector2f F → F) (hE : IsEuclidean len)
    (o u v : Vector2f F) (cols rows : Nat) (s j eps : F) (points : List (Vector2f F))
    (hs : 0 < s) (hu : len u = s) (hv : len v = s) (huv : u.1 * v.1 + u.2 * v.2 = 0)
    (hn : 2 ≤ rows * cols)
    (hjit : List.Forall₂ (fun p l => len (p - l) ≤ j) points (gridPoints o u v cols rows))
    (_hj : j < s / 4)
    (hclose : ∀ p ∈ points, ∀ q ∈ points, |norm (p - q) - len (p - q)| ≤ eps)
    (hmax : s + 2 * j + eps < FLT_MAX) :
    |estimateCheckerBoardSize norm points - s| ≤ 2 * j + eps := by
  obtain ⟨hfar, hnear⟩ := jittered_grid_pairs hE o u v s j hs.le hu hv huv cols rows hn
    points hjit
  have hlen : points.length = rows * cols := by
    rw [hjit.length_eq, gridPoints_length]
  obtain ⟨⟨h1, h2⟩, -⟩ := estimators_between norm points (by omega) (s - 2 * j - eps)
    (s + 2 * j + eps) hmax
    (by
      intro p hp q hq hne
      have a := hfar p hp q hq hne
      have b := (abs_le.mp (hclose p.2 (mem_of_mem_enum _ p hp) q.2 (mem_of_mem_enum _ q hq))).1
      linarith)
    (by
      intro p hp
      obtain ⟨q, hq, hne, a⟩ := hnear p hp
      refine ⟨q, hq, hne, ?_⟩
      have b := (abs_le.mp (hclose p.2 (mem_of_mem_enum _ p hp) q.2 (mem_of_mem_enum _ q hq))).2
      linarith)
  rw [abs_le]
  constructor <;> linarith

/-- Witness for C6: the 1 x 2 grid (0,0), (4,0) of spacing 4, both points pushed outwards
by 1/2, with a computed distance that exceeds the exact Euclidean length by the factor
1 + 1/1024, hence by at most eps = 1/128 on this set. -/
theorem estimateCheckerBoardSize_jitter_witness :
    |estimateCheckerBoardSize
        (fun v : Vector2f ℝ => Real.sqrt (v.1 * v.1 + v.2 * v.2) * (1 + 1 / 1024))
        [(-1 / 2, 0), (9 / 2, 0)] - 4| ≤ 2 * (1 / 2) + 1 / 128 :=
  estimateCheckerBoardSize_jitter _ _ isEuclidean_sqrt (0, 0) (4, 0) (0, 4) 2 1 4 (1 / 2)
    (1 / 128) [(-1 / 2, 0), (9 / 2, 0)] (by norm_num)
    (by simp only [Real.sqrt_mul_self_eq_abs, mul_zero, add_zero]; norm_num)
    (by simp only [Real.sqrt_mul_self_eq_abs, mul_zero, zero_add]; norm_num)
    (by norm_num) (by norm_num)
    (by
      simp [gridPoints, latticePoint, List.range_succ, Real.sqrt_mul_self_eq_abs]
      norm_num [abs_of_nonneg, abs_of_nonpos])
    (by norm_num)
    (by
      intro p hp q hq
      simp only [List.mem_cons, List.mem_singleton, List.not_mem_nil, or_false] at hp hq
      rcases hp with rfl | rfl <;> rcases hq with rfl | rfl <;>
        simp [Real.sqrt_mul_self_eq_abs] <;> norm_num [abs_of_nonneg, abs_of_nonpos])
    (by norm_num [FLT_MAX])

/-- C6 (counterexample): on the 1 x 2 grid (0,0), (4,0) of spacing s = 4 with both points
pushed outwards by j = 1/2 < s/4 the function returns 5, and |5 - 4| = 1 > j. -/
theorem estimateCheckerBoardSize_jitter_counterexample :
    List.Forall₂
        (fun p l => Real.sqrt ((p - l).1 * (p - l).1 + (p - l).2 * (p - l).2) ≤ 1 / 2)
        [((-1 / 2 : ℝ), (0 : ℝ)), (9 / 2, 0)] (gridPoints (0, 0) (4, 0) (0, 4) 2 1) ∧
      (1 / 2 : ℝ) < 4 / 4 ∧
      estimateCheckerBoardSize (fun v : Vector2f ℝ => Real.sqrt (v.1 * v.1 + v.2 * v.2))
        [(-1 / 2, 0), (9 / 2, 0)] = 5 ∧
      ¬ |estimateCheckerBoardSize (fun v : Vector2f ℝ => Real.sqrt (v.1 * v.1 + v.2 * v.2))
          [(-1 / 2, 0), (9 / 2, 0)] - 4| ≤ 1 / 2 := by
  have h1 : estimateCheckerBoardSize
      (fun v : Vector2f ℝ => Real.sqrt (v.1 * v.1 + v.2 * v.2))
      [(-1 / 2, 0), (9 / 2, 0)] = 5 := by
    simp [estimateCheckerBoardSize, closestDistances, scanOthers, scanStep,
      List.enum, List.enumFrom, Real.sqrt_mul_self_eq_abs]
    norm_num [FLT_MAX, abs_of_nonneg, abs_of_nonpos]
    simp
  refine ⟨?_, by norm_num, h1, ?_⟩
  · simp [gridPoints, latticePoint, List.range_succ, Real.sqrt_mul_self_eq_abs]
    norm_num [abs_of_nonneg, abs_of_nonpos]
  · rw [h1]; norm_num

/-- C7 (amended): on the exact grid produced by the generator the spacing is recovered
exactly wherever single precision is exact: for checkers_x >= 1 and checkers_y >= 1 with
checkers_x * checkers_y >= 2, checkers_size >= 1 and checkers_x * checkers_size <= 2^24,
checkers_y * checkers_size <= 2^24, and for a computed distance that is exact along the
axes and never below a coordinate on integer vectors of magnitude at most 2^24,
estimateCheckerBoardSize applied to the points emitted by getCheckerBoardModel returns
checkers_size, and getMinDistance of the same points is also checkers_size. -/
theorem estimators_on_generated_grid (norm : Vector2f F → F) (hN : IsExactOnIntegers norm)
    (checkers_x checkers_y checkers_size : Int)
    (hx : 1 ≤ checkers_x) (hy : 1 ≤ checkers_y) (hn : 2 ≤ checkers_x * checkers_y)
    (hs : 1 ≤ checkers_size) (hbx : checkers_x * checkers_size ≤ 16777216)
    (hby : checkers_y * checkers_size ≤ 16777216) :
    ∃ (img : Image F) (out : List (Vector2f F)),
      getCheckerBoardModel checkers_x checkers_y checkers_size [] = some (img, out) ∧
      estimateCheckerBoardSize norm out = (checkers_size : F) ∧
      getMinDistance norm out = (checkers_size : F) := by
  obtain ⟨img, hrun, -⟩ := getCheckerBoardModel_spec (F := F) checkers_x checkers_y
    checkers_size (by omega) (by omega) []
  have hpx : 0 ≤ checkers_x * checkers_size := mul_nonneg (by omega) (by omega)
  have hpy : 0 ≤ checkers_y * checkers_size := mul_nonneg (by omega) (by omega)
  rw [List.nil_append, generatedPoints_eq_modelPoints checkers_x checkers_y checkers_size
    (by rw [abs_of_nonneg hpx]; exact hbx) (by rw [abs_of_nonneg hpy]; exact hby)] at hrun
  obtain ⟨h1, h2⟩ := modelPoints_estimators norm hN checkers_x checkers_y checkers_size
    hx hy hn hs hbx hby
  exact ⟨img, _, hrun, h1, h2⟩

/-- Witness for C7: the 4 x 6 board with cells of 32 pixels, under the exact Euclidean
length. -/
theorem estimators_on_generated_grid_witness :
    ∃ (img : Image ℝ) (out : List (Vector2f ℝ)),
      getCheckerBoardModel 4 6 32 [] = some (img, out) ∧
      estimateCheckerBoardSize (fun v : Vector2f ℝ => Real.sqrt (v.1 * v.1 + v.2 * v.2)) out
        = ((32 : Int) : ℝ) ∧
      getMinDistance (fun v : Vector2f ℝ => Real.sqrt (v.1 * v.1 + v.2 * v.2)) out
        = ((32 : Int) : ℝ) :=
  estimators_on_generated_grid _ isEuclidean_sqrt.isExactOnIntegers 4 6 32 (by decide)
    (by decide) (by decide) (by decide) (by decide) (by decide)

/-- C7 (counterexample): checkers_x = 16777217 = 2^24 + 1, checkers_y = 1,
checkers_size = 1 satisfy checkers_x * checkers_y >= 2 and checkers_size >= 1. The
abscissae 16777216 and 16777217 of the last two points are both converted to the
single-precision number 16777216, so the two points coincide and getMinDistance of the
emitted points is 0 and not checkers_size = 1. -/
theorem estimators_on_generated_grid_counterexample :
    (2 : Int) ≤ 16777217 * 1 ∧ (1 : Int) ≤ 1 ∧
    ∃ (img : Image ℝ) (out : List (Vector2f ℝ)),
      getCheckerBoardModel 16777217 1 1 [] = some (img, out) ∧
      out[16777215]? = some ((16777216 : ℝ), (1 : ℝ)) ∧
      out[16777216]? = some ((16777216 : ℝ), (1 : ℝ)) ∧
      getMinDistance (fun v : Vector2f ℝ => Real.sqrt (v.1 * v.1 + v.2 * v.2)) out = 0 ∧
      getMinDistance (fun v : Vector2f ℝ => Real.sqrt (v.1 * v.1 + v.2 * v.2)) out
        ≠ ((1 : Int) : ℝ) := by
  obtain ⟨img, hrun, -⟩ := getCheckerBoardModel_spec (F := ℝ) 16777217 1 1 (by decide)
    (by decide) []
  rw [List.nil_append] at hrun
  have hv0 : roundToBinary32 (wrapInt ((((16777215 : Nat) : Int) + 1) * 1)) = 16777216 := by
    decide
  have hv1 : roundToBinary32 (wrapInt ((((16777216 : Nat) : Int) + 1) * 1)) = 16777216 := by
    decide
  have hv2 : roundToBinary32 (wrapInt ((((0 : Nat) : Int) + 1) * 1)) = 1 := by decide
  have hp0 : (generatedPoints 16777217 1 1 : List (Vector2f ℝ))[16777215]? =
      some ((16777216 : ℝ), (1 : ℝ)) := by
    have hget := generatedPoints_getElem? (F := ℝ) 16777217 1 1 0 16777215 (by decide)
      (by decide)
    rw [show 0 * (16777217 : Int).toNat + 16777215 = 16777215 from by decide] at hget
    rw [hget]
    unfold intToFloat
    rw [hv0, hv2]
    norm_num
  have hp1 : (generatedPoints 16777217 1 1 : List (Vector2f ℝ))[16777216]? =
      some ((16777216 : ℝ), (1 : ℝ)) := by
    have hget := generatedPoints_getElem? (F := ℝ) 16777217 1 1 0 16777216 (by decide)
      (by decide)
    rw [show 0 * (16777217 : Int).toNat + 16777216 = 16777216 from by decide] at hget
    rw [hget]
    unfold intToFloat
    rw [hv1, hv2]
    norm_num
  have hmin : getMinDistance (fun v : Vector2f ℝ => Real.sqrt (v.1 * v.1 + v.2 * v.2))
      (generatedPoints 16777217 1 1) = 0 := by
    rw [getMinDistance_eq]
    apply le_antisymm
    · refine foldl_min_le_mem _ _ ?_
      refine List.mem_flatMap.mpr ⟨(16777215, ((16777216 : ℝ), (1 : ℝ))),
        List.mem_enum_iff_getElem?.mpr hp0, ?_⟩
      refine (mem_distancesToOthers _ _ _ _ _).mpr
        ⟨(16777216, ((16777216 : ℝ), (1 : ℝ))), List.mem_enum_iff_getElem?.mpr hp1,
          by decide, ?_⟩
      simp
    · rcases foldl_min_mem (pairwiseDistances
        (fun v : Vector2f ℝ => Real.sqrt (v.1 * v.1 + v.2 * v.2))
        (generatedPoints 16777217 1 1)) FLT_MAX with h | h
      · rw [h]; exact FLT_MAX_pos.le
      · obtain ⟨p, -, hd⟩ := List.mem_flatMap.mp h
        obtain ⟨q, -, -, he⟩ := (mem_distancesToOthers _ _ _ _ _).mp hd
        rw [← he]
        exact Real.sqrt_nonneg _
  refine ⟨by decide, by decide, img, _, hrun, hp0, hp1, hmin, ?_⟩
  rw [hmin]
  norm_num

/-- C8: the isolation filter of findCheckerBoard keeps exactly, in order, the candidates
p_i for which every other candidate p_j (j != i) has distance >= checker_size from p_i;
in particular it never increases the number of points. -/
theorem isolationFilter_spec (norm : Vector2f F → F) (checker_size : F)
    (cfi_out : List (Vector2f F)) :
    isolationFilter norm checker_size cfi_out =
        (cfi_out.enum.filter
          (fun q => decide (IsIsolated norm checker_size cfi_out q.1 q.2))).map Prod.snd ∧
      (isolationFilter norm checker_size cfi_out).length ≤ cfi_out.length := by
  have h : isolationFilter norm checker_size cfi_out =
      (cfi_out.enum.filter
        (fun q => decide (IsIsolated norm checker_size cfi_out q.1 q.2))).map Prod.snd := by
    unfold isolationFilter
    rw [foldl_push_filter, List.nil_append]
    refine congrArg (List.map Prod.snd) (List.filter_congr fun q _ => ?_)
    rw [Bool.eq_iff_iff, isolationFlag_iff, decide_eq_true_iff]
    rfl
  refine ⟨h, ?_⟩
  rw [h, List.length_map]
  exact (List.length_filter_le _ _).trans (le_of_eq List.enum_length)

/-- C5 (amended): scale linearity of getMinDistance up to the tolerance of the computed
distances and below the FLT_MAX clamp. Let P be a point set with at least two points,
k > 0 a scale factor and Q the scaled set, point for point. If every distance computed
between two points of Q is within eps of k times the distance computed between the
corresponding points of P, and getMinDistance(P) and k * getMinDistance(P) + eps are below
FLT_MAX, then getMinDistance(Q) is within eps of k * getMinDistance(P); for eps = 0 the
two are equal. -/
theorem getMinDistance_scale (norm : Vector2f F → F) (P Q : List (Vector2f F)) (k eps : F)
    (_hn : 2 ≤ P.length) (hk : 0 < k) (hlen : Q.length = P.length)
    (hclose : ∀ (i j : Nat) (p q p' q' : Vector2f F), i ≠ j → P[i]? = some p → P[j]? = some q →
      Q[i]? = some p' → Q[j]? = some q' → |norm (p' - q') - k * norm (p - q)| ≤ eps)
    (h1 : getMinDistance norm P < FLT_MAX)
    (h2 : k * getMinDistance norm P + eps < FLT_MAX) :
    |getMinDistance norm Q - k * getMinDistance norm P| ≤ eps ∧
    (eps = 0 → getMinDistance norm Q = k * getMinDistance norm P) := by
  have h := getMinDistance_within norm P Q k eps hk hlen hclose h1 h2
  refine ⟨h, fun h0 => ?_⟩
  rw [h0] at h
  exact sub_eq_zero.mp (abs_eq_zero.mp (le_antisymm h (abs_nonneg _)))

/-- Witness for C5: the points (0, 0), (1, 0) and (1, 1) scaled by 2, under the exact
Euclidean length, for which the tolerance is eps = 0: the minimum distance of the scaled
set is twice that of the original set. -/
theorem getMinDistance_scale_witness :
    getMinDistance (fun v : Vector2f ℝ => Real.sqrt (v.1 * v.1 + v.2 * v.2))
        (scalePoints 2 [(0, 0), (1, 0), (1, 1)]) =
      2 * getMinDistance (fun v : Vector2f ℝ => Real.sqrt (v.1 * v.1 + v.2 * v.2))
        [(0, 0), (1, 0), (1, 1)] :=
  have hmin : getMinDistance (fun v : Vector2f ℝ => Real.sqrt (v.1 * v.1 + v.2 * v.2))
      [(0, 0), (1, 0), (1, 1)] ≤ 1 := by
    rw [getMinDistance_eq]
    refine foldl_min_le_mem _ _ ?_
    simp [pairwiseDistances, distancesToOthers, List.enum, List.enumFrom]
  (getMinDistance_scale _ [(0, 0), (1, 0), (1, 1)] (scalePoints 2 [(0, 0), (1, 0), (1, 1)])
    2 0 (by simp) (by norm_num) (by simp [scalePoints])
    (by
      intro i j p q p' q' _ hp hq hp' hq'
      rw [scalePoints_getElem?, hp] at hp'
      rw [scalePoints_getElem?, hq] at hq'
      rw [← Option.some.inj hp', ← Option.some.inj hq',
        isEuclidean_sqrt.norm_scale (by norm_num : (0 : ℝ) ≤ 2) p q]
      simp)
    (lt_of_le_of_lt hmin (by norm_num [FLT_MAX]))
    (by
      have := mul_le_mul_of_nonneg_left hmin (by norm_num : (0 : ℝ) ≤ 2)
      have h3 : (2 : ℝ) * 1 + 0 < FLT_MAX := by norm_num [FLT_MAX]
      linarith)).2 rfl

/-- C5 (counterexample): the points (-1, 0) and (1, 0) have minimum distance 2; scaled by
k = FLT_MAX they become (-FLT_MAX, 0) and (FLT_MAX, 0), whose distance is not below
FLT_MAX, so getMinDistance of the scaled set is the initial value FLT_MAX and not
k * 2. -/
theorem getMinDistance_scale_counterexample :
    2 ≤ [((-1 : ℝ), (0 : ℝ)), (1, 0)].length ∧ (0 : ℝ) < FLT_MAX ∧
    scalePoints FLT_MAX [((-1 : ℝ), (0 : ℝ)), (1, 0)] = [(-FLT_MAX, 0), (FLT_MAX, 0)] ∧
    getMinDistance (fun v : Vector2f ℝ => Real.sqrt (v.1 * v.1 + v.2 * v.2))
        (scalePoints FLT_MAX [(-1, 0), (1, 0)]) = FLT_MAX ∧
    getMinDistance (fun v : Vector2f ℝ => Real.sqrt (v.1 * v.1 + v.2 * v.2))
        [(-1, 0), (1, 0)] = 2 ∧
    getMinDistance (fun v : Vector2f ℝ => Real.sqrt (v.1 * v.1 + v.2 * v.2))
        (scalePoints FLT_MAX [(-1, 0), (1, 0)]) ≠
      FLT_MAX * getMinDistance (fun v : Vector2f ℝ => Real.sqrt (v.1 * v.1 + v.2 * v.2))
        [(-1, 0), (1, 0)] := by
  have h0 : scalePoints FLT_MAX [((-1 : ℝ), (0 : ℝ)), (1, 0)] =
      [(-FLT_MAX, 0), (FLT_MAX, 0)] := by
    simp [scalePoints]
  have h1 : getMinDistance (fun v : Vector2f ℝ => Real.sqrt (v.1 * v.1 + v.2 * v.2))
      (scalePoints FLT_MAX [(-1, 0), (1, 0)]) = FLT_MAX := by
    rw [h0]
    simp [getMinDistance, scanOthers, scanStep, List.enum, List.enumFrom,
      Real.sqrt_mul_self_eq_abs]
    norm_num [FLT_MAX, abs_of_nonneg, abs_of_nonpos]
  have h2 : getMinDistance (fun v : Vector2f ℝ => Real.sqrt (v.1 * v.1 + v.2 * v.2))
      [(-1, 0), (1, 0)] = 2 := by
    simp [getMinDistance, scanOthers, scanStep, List.enum, List.enumFrom,
      Real.sqrt_mul_self_eq_abs]
    norm_num [FLT_MAX, abs_of_nonneg, abs_of_nonpos]
  refine ⟨by simp, FLT_MAX_pos, h0, h1, h2, ?_⟩
  rw [h1, h2]
  norm_num [FLT_MAX]

/-- C10: for every point set with fewer than 2 points (empty or a single point),
estimateCheckerBoardSize returns the sentinel -1. -/
theorem estimateCheckerBoardSize_lt_two (norm : Vector2f F → F)
    (points : List (Vector2f F)) (hn : points.length < 2) :
    estimateCheckerBoardSize norm points = -1 := by
  unfold estimateCheckerBoardSize
  rw [if_pos hn]

/-- Witness for C10: a single point. -/
theorem estimateCheckerBoardSize_lt_two_witness :
    estimateCheckerBoardSize (fun v : Vector2f ℝ => Real.sqrt (v.1 * v.1 + v.2 * v.2))
      [(5, 7)] = -1 :=
  estimateCheckerBoardSize_lt_two _ _ (by simp)

end MainResults

section MainResultsEstimators

variable {F : Type} [LinearOrderedField F]

/-- C14 (amended): for every point set with fewer than 2 points, getMinDistance returns
FLT_MAX, the initial value of its running minimum, which is a positive value and not a
negative sentinel. -/
theorem getMinDistance_few_points (norm : Vector2f F → F) (points : List (Vector2f F))
    (hn : points.length < 2) :
    getMinDistance norm points = FLT_MAX ∧ (0 : F) < getMinDistance norm points := by
  rw [getMinDistance_lt_two norm points hn]
  exact ⟨rfl, FLT_MAX_pos⟩

/-- Witness for C14: a single point. -/
theorem getMinDistance_few_points_witness :
    getMinDistance (fun v : Vector2f ℝ => Real.sqrt (v.1 * v.1 + v.2 * v.2)) [(5, 7)]
        = FLT_MAX ∧
      (0 : ℝ) < getMinDistance (fun v : Vector2f ℝ => Real.sqrt (v.1 * v.1 + v.2 * v.2))
        [(5, 7)] :=
  getMinDistance_few_points _ _ (by simp)

/-- C14 (counterexample): on the empty set and on a single point no distance is ever
computed and getMinDistance returns FLT_MAX, which is not negative. -/
theorem getMinDistance_few_points_counterexample :
    ([] : List (Vector2f ℝ)).length < 2 ∧ [((5 : ℝ), (7 : ℝ))].length < 2 ∧
    getMinDistance (fun v : Vector2f ℝ => Real.sqrt (v.1 * v.1 + v.2 * v.2)) [] = FLT_MAX ∧
    getMinDistance (fun v : Vector2f ℝ => Real.sqrt (v.1 * v.1 + v.2 * v.2)) [(5, 7)]
      = FLT_MAX ∧
    ¬ getMinDistance (fun v : Vector2f ℝ => Real.sqrt (v.1 * v.1 + v.2 * v.2)) [] < 0 ∧
    ¬ getMinDistance (fun v : Vector2f ℝ => Real.sqrt (v.1 * v.1 + v.2 * v.2)) [(5, 7)] < 0 := by
  have h0 := getMinDistance_lt_two
    (fun v : Vector2f ℝ => Real.sqrt (v.1 * v.1 + v.2 * v.2)) [] (by simp)
  have h1 := getMinDistance_lt_two
    (fun v : Vector2f ℝ => Real.sqrt (v.1 * v.1 + v.2 * v.2)) [(5, 7)] (by simp)
  refine ⟨by simp, by simp, h0, h1, ?_, ?_⟩
  · rw [h0]; exact not_lt.mpr FLT_MAX_pos.le
  · rw [h1]; exact not_lt.mpr FLT_MAX_pos.le

/-- C16 (amended): for every candidate sequence and first spacing estimate c, if the
isolation filter leaves at least 2 points then all pairwise distances among the survivors
are >= c, and if moreover two survivors are closer than FLT_MAX (getMinDistance of the
filtered set is below FLT_MAX), the spacing re-estimated from the filtered set is >= c. -/
theorem isolationFilter_estimate_ge (norm : Vector2f F → F) (cfi_out : List (Vector2f F))
    (c : F) (hn : 2 ≤ (isolationFilter norm c cfi_out).length) :
    (∀ p ∈ (isolationFilter norm c cfi_out).enum,
      ∀ q ∈ (isolationFilter norm c cfi_out).enum, q.1 ≠ p.1 → c ≤ norm (p.2 - q.2)) ∧
    (getMinDistance norm (isolationFilter norm c cfi_out) < FLT_MAX →
      c ≤ estimateCheckerBoardSize norm (isolationFilter norm c cfi_out)) := by
  have hpair := isolationFilter_pairwise norm c cfi_out
  refine ⟨hpair, fun h => ?_⟩
  refine estimateCheckerBoardSize_ge norm _ hn (closestDistances_ne_nil norm _ h).2 c ?_
  intro d hd
  obtain ⟨p, hp, hd2⟩ := List.mem_flatMap.mp hd
  obtain ⟨q, hq, hne, he⟩ := (mem_distancesToOthers norm _ p.1 p.2 d).mp hd2
  rw [← he]
  exact hpair p hp q hq hne

/-- Witness for C16: the candidates (0,0) and (4,0) with the first estimate 3. -/
theorem isolationFilter_estimate_ge_witness :
    (∀ p ∈ (isolationFilter (fun v : Vector2f ℝ => Real.sqrt (v.1 * v.1 + v.2 * v.2)) 3
        [(0, 0), (4, 0)]).enum,
      ∀ q ∈ (isolationFilter (fun v : Vector2f ℝ => Real.sqrt (v.1 * v.1 + v.2 * v.2)) 3
        [(0, 0), (4, 0)]).enum,
      q.1 ≠ p.1 → (3 : ℝ) ≤ Real.sqrt ((p.2 - q.2).1 * (p.2 - q.2).1 +
        (p.2 - q.2).2 * (p.2 - q.2).2)) ∧
    (getMinDistance (fun v : Vector2f ℝ => Real.sqrt (v.1 * v.1 + v.2 * v.2))
        (isolationFilter (fun v : Vector2f ℝ => Real.sqrt (v.1 * v.1 + v.2 * v.2)) 3
          [(0, 0), (4, 0)]) < FLT_MAX →
      (3 : ℝ) ≤ estimateCheckerBoardSize
        (fun v : Vector2f ℝ => Real.sqrt (v.1 * v.1 + v.2 * v.2))
        (isolationFilter (fun v : Vector2f ℝ => Real.sqrt (v.1 * v.1 + v.2 * v.2)) 3
          [(0, 0), (4, 0)])) :=
  isolationFilter_estimate_ge _ [(0, 0), (4, 0)] 3 (by
    have h : isolationFilter (fun v : Vector2f ℝ => Real.sqrt (v.1 * v.1 + v.2 * v.2)) 3
        [(0, 0), (4, 0)] = [(0, 0), (4, 0)] := by
      simp [isolationFilter, isolationFlag, List.enum, List.enumFrom,
        Real.sqrt_mul_self_eq_abs]
      norm_num [abs_of_nonneg, abs_of_nonpos]
    rw [h]
    simp)

/-- C16 (counterexample): the candidates (-FLT_MAX, 0) and (FLT_MAX, 0) with the first
estimate c = 1 both survive the filter, their distance 2 * FLT_MAX is not below FLT_MAX,
and the re-estimated spacing is 0, which is less than c. -/
theorem isolationFilter_estimate_ge_counterexample :
    isolationFilter (fun v : Vector2f ℝ => Real.sqrt (v.1 * v.1 + v.2 * v.2)) 1
        [(-FLT_MAX, 0), (FLT_MAX, 0)] = [(-FLT_MAX, 0), (FLT_MAX, 0)] ∧
    2 ≤ (isolationFilter (fun v : Vector2f ℝ => Real.sqrt (v.1 * v.1 + v.2 * v.2)) 1
        [(-FLT_MAX, 0), (FLT_MAX, 0)]).length ∧
    estimateCheckerBoardSize (fun v : Vector2f ℝ => Real.sqrt (v.1 * v.1 + v.2 * v.2))
        (isolationFilter (fun v : Vector2f ℝ => Real.sqrt (v.1 * v.1 + v.2 * v.2)) 1
          [(-FLT_MAX, 0), (FLT_MAX, 0)]) = 0 ∧
    ¬ (1 : ℝ) ≤ estimateCheckerBoardSize
        (fun v : Vector2f ℝ => Real.sqrt (v.1 * v.1 + v.2 * v.2))
        (isolationFilter (fun v : Vector2f ℝ => Real.sqrt (v.1 * v.1 + v.2 * v.2)) 1
          [(-FLT_MAX, 0), (FLT_MAX, 0)]) := by
  have h : isolationFilter (fun v : Vector2f ℝ => Real.sqrt (v.1 * v.1 + v.2 * v.2)) 1
      [(-FLT_MAX, 0), (FLT_MAX, 0)] = [(-FLT_MAX, 0), (FLT_MAX, 0)] := by
    simp [isolationFilter, isolationFlag, List.enum, List.enumFrom,
      Real.sqrt_mul_self_eq_abs]
    norm_num [FLT_MAX, abs_of_nonneg, abs_of_nonpos]
  have h1 : estimateCheckerBoardSize
      (fun v : Vector2f ℝ => Real.sqrt (v.1 * v.1 + v.2 * v.2))
      [(-FLT_MAX, 0), (FLT_MAX, 0)] = 0 := by
    simp [estimateCheckerBoardSize, closestDistances, scanOthers, scanStep,
      List.enum, List.enumFrom, Real.sqrt_mul_self_eq_abs]
    norm_num [FLT_MAX, abs_of_nonneg, abs_of_nonpos]
  rw [h]
  refine ⟨rfl, by simp, h1, ?_⟩
  rw [h1]
  norm_num

/-- C17 (amended): for every point set with at least 2 points in which some two points
are closer than FLT_MAX (getMinDistance is below FLT_MAX), getMinDistance(P) <=
estimateCheckerBoardSize(P). -/
theorem getMinDistance_le_estimate (norm : Vector2f F → F) (points : List (Vector2f F))
    (hn : 2 ≤ points.length) (h : getMinDistance norm points < FLT_MAX) :
    getMinDistance norm points ≤ estimateCheckerBoardSize norm points := by
  refine estimateCheckerBoardSize_ge norm points hn (closestDistances_ne_nil norm points h).2
    _ ?_
  intro d hd
  rw [getMinDistance_eq]
  exact foldl_min_le_mem _ _ hd

/-- Witness for C17: three collinear points at abscissae 0, 1 and 3. -/
theorem getMinDistance_le_estimate_witness :
    getMinDistance (fun v : Vector2f ℝ => Real.sqrt (v.1 * v.1 + v.2 * v.2))
        [(0, 0), (1, 0), (3, 0)] ≤
      estimateCheckerBoardSize (fun v : Vector2f ℝ => Real.sqrt (v.1 * v.1 + v.2 * v.2))
        [(0, 0), (1, 0), (3, 0)] :=
  have hmin : getMinDistance (fun v : Vector2f ℝ => Real.sqrt (v.1 * v.1 + v.2 * v.2))
      [(0, 0), (1, 0), (3, 0)] ≤ 1 := by
    rw [getMinDistance_eq]
    refine foldl_min_le_mem _ _ ?_
    simp [pairwiseDistances, distancesToOthers, List.enum, List.enumFrom]
  getMinDistance_le_estimate _ _ (by simp) (lt_of_le_of_lt hmin (by norm_num [FLT_MAX]))

/-- C17 (counterexample): for the two points (-FLT_MAX, 0) and (FLT_MAX, 0) the only
distance 2 * FLT_MAX is not below FLT_MAX: getMinDistance keeps its initial value FLT_MAX
while estimateCheckerBoardSize returns 0. -/
theorem getMinDistance_le_estimate_counterexample :
    2 ≤ [((-FLT_MAX : ℝ), (0 : ℝ)), (FLT_MAX, 0)].length ∧
    getMinDistance (fun v : Vector2f ℝ => Real.sqrt (v.1 * v.1 + v.2 * v.2))
        [(-FLT_MAX, 0), (FLT_MAX, 0)] = FLT_MAX ∧
    estimateCheckerBoardSize (fun v : Vector2f ℝ => Real.sqrt (v.1 * v.1 + v.2 * v.2))
        [(-FLT_MAX, 0), (FLT_MAX, 0)] = 0 ∧
    ¬ getMinDistance (fun v : Vector2f ℝ => Real.sqrt (v.1 * v.1 + v.2 * v.2))
        [(-FLT_MAX, 0), (FLT_MAX, 0)] ≤
      estimateCheckerBoardSize (fun v : Vector2f ℝ => Real.sqrt (v.1 * v.1 + v.2 * v.2))
        [(-FLT_MAX, 0), (FLT_MAX, 0)] := by
  have h0 : getMinDistance (fun v : Vector2f ℝ => Real.sqrt (v.1 * v.1 + v.2 * v.2))
      [(-FLT_MAX, 0), (FLT_MAX, 0)] = FLT_MAX := by
    simp [getMinDistance, scanOthers, scanStep, List.enum, List.enumFrom,
      Real.sqrt_mul_self_eq_abs]
    norm_num [FLT_MAX, abs_of_nonneg, abs_of_nonpos]
  have h1 : estimateCheckerBoardSize
      (fun v : Vector2f ℝ => Real.sqrt (v.1 * v.1 + v.2 * v.2))
      [(-FLT_MAX, 0), (FLT_MAX, 0)] = 0 := by
    simp [estimateCheckerBoardSize, closestDistances, scanOthers, scanStep,
      List.enum, List.enumFrom, Real.sqrt_mul_self_eq_abs]
    norm_num [FLT_MAX, abs_of_nonneg, abs_of_nonpos]
  refine ⟨by simp, h0, h1, ?_⟩
  rw [h0, h1]
  exact not_le.mpr FLT_MAX_pos

/-- C15: on the failing input, a model of a single point, estimateLengthOfCheckers does
not return -1: the loop does not run, closest keeps the value -1 and the read
corners_model[closest] is out of range (the checked run fails); only on the empty model
does it return -1 and leave p0, p1 untouched. -/
theorem estimateLengthOfCheckers_single_point :
    estimateLengthOfCheckers (fun v : Vector2f ℝ => Real.sqrt (v.1 * v.1 + v.2 * v.2))
        [(3, 4)] (7, 7) (9, 9) = none ∧
    estimateLengthOfCheckers (fun v : Vector2f ℝ => Real.sqrt (v.1 * v.1 + v.2 * v.2))
        [] (7, 7) (9, 9) = some (-1, (7, 7), (9, 9)) :=
  ⟨estimateLengthOfCheckers_single _ _ _ _, estimateLengthOfCheckers_nil _ _ _⟩

/-- C18: on the failing input, 72 seed runs that all report the residual FLT_MAX, the
test output_error < prev_err never succeeds and the buffer x is still unwritten when the
start vector of the final refinement is read from it. -/
theorem rotationSearch_all_at_FLT_MAX :
    (rotationSearch (fun i => ({ tmp := ((i : ℚ), 0, 0), output_error := FLT_MAX } : SeedRun ℚ))).x
      = none :=
  rotationSearch_unwritten _ (fun _ _ => le_refl _)

end MainResultsEstimators

section MainResultsWhitePoint

variable {F : Type} [LinearOrderedField F] [FloorRing F]

end MainResultsWhitePoint

section MainResultsStereo

variable {F : Type} [LinearOrderedField F] [FloorRing F]

/-- C20 (amended): for equal-sized disparity maps L and R with at least two channels whose
truncated disparities are values of type int, and every threshold t >= 0, no write of
checkDisparity(L, R, t) leaves a map; it sets both maps to (0, -1) at exactly the pixels
that fail the test as the machine evaluates it, std::abs(int(L[0]) - int(R[0])) > t with
the difference and its absolute value taken in 32-bit int arithmetic, and leaves every
other pixel unchanged, after which no pixel fails that test. Wherever the exact difference
has magnitude at most INT_MAX the test is |int(L[0]) - int(R[0])| > t. Hence the second
call checkDisparity(R, L, t) made by estimateStereo changes nothing, and the two calls
together give what the first one gives. -/
theorem checkDisparity_stable (L R : Image F) (t : Int) (hw : L.width = R.width)
    (hh : L.height = R.height) (hcL : 2 ≤ L.channels) (hcR : 2 ≤ R.channels) (ht : 0 ≤ t)
    (_hiL : DisparitiesInInt L) (_hiR : DisparitiesInInt R) :
    ∃ L' R' : Image F, checkDisparity L R t = some (L', R') ∧
      (∀ x y, 0 ≤ x → x < L.width → 0 ≤ y → y < L.height →
        (Mismatch L R t x y →
          L'.data x y 0 = 0 ∧ L'.data x y 1 = -1 ∧ R'.data x y 0 = 0 ∧ R'.data x y 1 = -1) ∧
        (¬ Mismatch L R t x y → ∀ c,
          L'.data x y c = L.data x y c ∧ R'.data x y c = R.data x y c) ∧
        wrapInt |wrapInt (truncToInt (L'.data x y 0) - truncToInt (R'.data x y 0))| ≤ t ∧
        (|truncToInt (L.data x y 0) - truncToInt (R.data x y 0)| ≤ INT_MAX →
          (Mismatch L R t x y ↔
            |truncToInt (L.data x y 0) - truncToInt (R.data x y 0)| > t))) ∧
      checkDisparity R' L' t = some (R', L') ∧
      crossCheck L R t = some (L', R') := by
  obtain ⟨res, hrun, hres⟩ := checkDisparity_spec L R t hw hh hcL hcR
  have h2 := checkDisparity_second L R t hw hh hcL hcR ht res hres
  obtain ⟨-, -, hd⟩ := id hres
  refine ⟨res.1, res.2, hrun, ?_, h2, ?_⟩
  · intro x y hx0 hx hy0 hy
    have hv : Visited L.width (max 0 L.height) 0 x y :=
      (visited_final _ _ x y).mpr ⟨hx0, hx, hy0, hy⟩
    refine ⟨fun hm => ?_, fun hm c => (hd x y c).2 (fun h => hm h.2), ?_, fun hle => ?_⟩
    · have a0 := (hd x y 0).1 ⟨hv, hm⟩
      have a1 := (hd x y 1).1 ⟨hv, hm⟩
      simp only [invalidated, if_true, one_ne_zero, if_false] at a0 a1
      exact ⟨a0.1, a1.1, a0.2, a1.2⟩
    · exact not_lt.mp (checkInv_consistent L R t ht res hres x y hx0 hx hy0 hy)
    · unfold Mismatch
      rw [wrapInt_abs_of_le _ hle]
  · unfold crossCheck
    rw [hrun]
    simp only [Option.some_bind, h2, Option.map_some']

/-- Witness for C20: two 2 x 1 maps with the disparities (10, 3) and (1, 1), threshold 4.
The pixel (0, 0) fails the test (|10 - 1| = 9 > 4) and is set to (0, -1) in both maps, the
pixel (1, 0) passes it (|3 - 1| = 2) and is left unchanged, and the second call changes
nothing. -/
theorem checkDisparity_stable_witness :
    ∃ L' R' : Image ℚ, checkDisparity leftTestMap rightTestMap 4 = some (L', R') ∧
      (L'.data 0 0 0 = 0 ∧ L'.data 0 0 1 = -1 ∧ R'.data 0 0 0 = 0 ∧ R'.data 0 0 1 = -1) ∧
      (∀ c, L'.data 1 0 c = leftTestMap.data 1 0 c ∧ R'.data 1 0 c = rightTestMap.data 1 0 c) ∧
      L'.data 1 0 0 = 3 ∧ R'.data 1 0 0 = 1 ∧
      checkDisparity R' L' 4 = some (R', L') ∧
      crossCheck leftTestMap rightTestMap 4 = some (L', R') := by
  obtain ⟨L', R', hrun, hpix, hsecond, hboth⟩ := checkDisparity_stable leftTestMap
    rightTestMap 4 rfl rfl (by decide) (by decide) (by decide)
    disparitiesInInt_leftTestMap disparitiesInInt_rightTestMap
  have e10 : truncToInt (10 : ℚ) = 10 := by
    rw [show (10 : ℚ) = ((10 : Int) : ℚ) from by norm_num, truncToInt_intCast]
  have e3 : truncToInt (3 : ℚ) = 3 := by
    rw [show (3 : ℚ) = ((3 : Int) : ℚ) from by norm_num, truncToInt_intCast]
  have e1 : truncToInt (1 : ℚ) = 1 := by
    rw [show (1 : ℚ) = ((1 : Int) : ℚ) from by norm_num, truncToInt_intCast]
  have m0 : Mismatch leftTestMap rightTestMap 4 0 0 := by
    simp only [Mismatch, leftTestMap, rightTestMap, if_true, e10, e1]
    decide
  have m1 : ¬ Mismatch leftTestMap rightTestMap 4 1 0 := by
    simp only [Mismatch, leftTestMap, rightTestMap, if_true, one_ne_zero, if_false, e3, e1]
    decide
  obtain ⟨h0, -, -, -⟩ := hpix 0 0 (by decide) (by decide) (by decide) (by decide)
  obtain ⟨-, h1, -, -⟩ := hpix 1 0 (by decide) (by decide) (by decide) (by decide)
  refine ⟨L', R', hrun, h0 m0, h1 m1, ?_, ?_, hsecond, hboth⟩
  · rw [(h1 m1 0).1]; simp [leftTestMap]
  · rw [(h1 m1 0).2]; simp [rightTestMap]

/-- C20 (counterexample): two 1 x 1 maps with the disparities 2147483520 and -2147483520,
both single-precision numbers and values of type int, and the threshold t = 1000. The
exact difference 4294967040 exceeds t, but the 32-bit difference is -256, whose magnitude
256 does not: checkDisparity leaves the pixel as it is instead of setting it to
(0, -1). -/
theorem checkDisparity_stable_counterexample :
    farLeftMap.width = farRightMap.width ∧ farLeftMap.height = farRightMap.height ∧
    DisparitiesInInt farLeftMap ∧ DisparitiesInInt farRightMap ∧
    truncToInt (farLeftMap.data 0 0 0) = 2147483520 ∧
    truncToInt (farRightMap.data 0 0 0) = -2147483520 ∧
    |truncToInt (farLeftMap.data 0 0 0) - truncToInt (farRightMap.data 0 0 0)| > 1000 ∧
    wrapInt (truncToInt (farLeftMap.data 0 0 0) - truncToInt (farRightMap.data 0 0 0))
      = -256 ∧
    checkDisparity farLeftMap farRightMap 1000 = some (farLeftMap, farRightMap) ∧
    farLeftMap.data 0 0 0 ≠ 0 := by
  have eL : ∀ x y : Int, truncToInt (farLeftMap.data x y 0) = 2147483520 := by
    intro x y
    simp only [farLeftMap, if_true]
    rw [show (2147483520 : ℚ) = ((2147483520 : Int) : ℚ) from by norm_num, truncToInt_intCast]
  have eR : ∀ x y : Int, truncToInt (farRightMap.data x y 0) = -2147483520 := by
    intro x y
    simp only [farRightMap, if_true]
    rw [show (-2147483520 : ℚ) = ((-2147483520 : Int) : ℚ) from by norm_num,
      truncToInt_intCast]
  refine ⟨rfl, rfl, ?_, ?_, eL 0 0, eR 0 0, ?_, ?_, ?_, ?_⟩
  · intro x y _ _ _ _
    rw [eL]; decide
  · intro x y _ _ _ _
    rw [eR]; decide
  · rw [eL, eR]; decide
  · rw [eL, eR]; decide
  · apply checkDisparity_fixed farLeftMap farRightMap 1000 rfl rfl (by decide) (by decide)
    intro x y _ _ _ _
    unfold Mismatch
    rw [eL, eR]
    decide
  · simp [farLeftMap]

end MainResultsStereo

section MainResultsOrchestrator

variable {F : Type} [LinearOrderedField F]

/-- C11: on the failing input, a non-null image from which fewer than 2 corners survive
the isolation filter, findCheckerBoard does not abort. Whatever the collaborators and the
computed distance, for checkerBoardSizeX, checkerBoardSizeY >= 1 the spacing estimate is
the sentinel -1, the scale normalizer is applied to the generated model with
scaling_factor = -1 / min_dist, the sentinel divided by the minimum distance of the
generated model, and ICP, the rotation search and the final refinement are run on that
transformed model. -/
theorem findCheckerBoard_sentinel_not_checked {D : Type} (env : Collaborators F D)
    (norm : Vector2f F → F) (im : Image F)
    (corners_model : List (Vector2f F)) (checkerBoardSizeX checkerBoardSizeY : Int)
    (hx : 1 ≤ checkerBoardSizeX) (hy : 1 ≤ checkerBoardSizeY)
    (hfew : (filteredCorners env norm (some im)).length < 2) :
    estimateCheckerBoardSize norm (filteredCorners env norm (some im)) = -1 ∧
    ∃ (img_pattern : Image F) (out : List (Vector2f F)),
      getCheckerBoardModel checkerBoardSizeX checkerBoardSizeY 32 [] =
        some (img_pattern, out) ∧
      findCheckerBoard env norm (some im) corners_model checkerBoardSizeX checkerBoardSizeY =
        registration env
          (env.applyScale (-1 / getMinDistance norm out) out)
          (filteredCorners env norm (some im))
          (env.getAll (some img_pattern) out)
          (env.getAll (env.luminance (some im)) (filteredCorners env norm (some im))) := by
  obtain ⟨img_pattern, hgen, hrun⟩ := findCheckerBoard_few env norm im corners_model
    checkerBoardSizeX checkerBoardSizeY hx hy hfew
  refine ⟨?_, img_pattern, _, hgen, hrun⟩
  unfold estimateCheckerBoardSize
  rw [if_pos hfew]

/-- Witness for C11: an image in which no corner is detected, for the 4 x 6 board, with
collaborators that leave the model where it is. The run does not stop: the minimum
distance of the generated model is 32, the model is scaled by -1 / 32, and the run ends
with a model whose first point is (-1, -1) and not the generated (32, 32). -/
theorem findCheckerBoard_sentinel_not_checked_witness :
    (filteredCorners idleCollaborators
      (fun v : Vector2f ℝ => Real.sqrt (v.1 * v.1 + v.2 * v.2)) (some blankImage)).length < 2 ∧
    ∃ (img_pattern : Image ℝ) (out : List (Vector2f ℝ)),
      getCheckerBoardModel 4 6 32 [] = some (img_pattern, out) ∧
      out[0]? = some ((32 : ℝ), (32 : ℝ)) ∧
      getMinDistance (fun v : Vector2f ℝ => Real.sqrt (v.1 * v.1 + v.2 * v.2)) out = 32 ∧
      findCheckerBoard idleCollaborators
          (fun v : Vector2f ℝ => Real.sqrt (v.1 * v.1 + v.2 * v.2)) (some blankImage) [] 4 6 =
        Outcome.done (scalePoints (-1 / 32) out) ∧
      (scalePoints (-1 / 32) out)[0]? = some ((-1 : ℝ), (-1 : ℝ)) := by
  have hfew : (filteredCorners idleCollaborators
      (fun v : Vector2f ℝ => Real.sqrt (v.1 * v.1 + v.2 * v.2)) (some blankImage)).length < 2 := by
    simp [filteredCorners, idleCollaborators, isolationFilter, List.enum]
  obtain ⟨-, img_pattern, out, hgen, hrun⟩ := findCheckerBoard_sentinel_not_checked
    idleCollaborators (fun v : Vector2f ℝ => Real.sqrt (v.1 * v.1 + v.2 * v.2)) blankImage []
    4 6 (by decide) (by decide) hfew
  obtain ⟨img', hgen', -⟩ := getCheckerBoardModel_spec (F := ℝ) 4 6 32 (by decide)
    (by decide) []
  rw [List.nil_append, generatedPoints_eq_modelPoints 4 6 32 (by decide) (by decide),
    hgen] at hgen'
  obtain ⟨-, hout⟩ := Prod.mk.inj (Option.some.inj hgen')
  have hmin : getMinDistance (fun v : Vector2f ℝ => Real.sqrt (v.1 * v.1 + v.2 * v.2)) out
      = 32 := by
    rw [hout]
    have := (modelPoints_estimators (fun v : Vector2f ℝ => Real.sqrt (v.1 * v.1 + v.2 * v.2))
      isEuclidean_sqrt.isExactOnIntegers 4 6 32 (by decide) (by decide) (by decide)
      (by decide) (by decide) (by decide)).2
    rw [this]
    norm_num
  have h0 := modelPoints_getElem? (F := ℝ) 4 6 32 0 0 (by decide) (by decide)
  have h1 : out[0]? = some ((32 : ℝ), (32 : ℝ)) := by
    rw [hout, show (0 : Nat) = 0 * (4 : Int).toNat + 0 from rfl, h0]
    norm_num
  have hx : (rotationSearch (idleCollaborators.run3
      (scalePoints (-1 / 32) out)
      (filteredCorners idleCollaborators
        (fun v : Vector2f ℝ => Real.sqrt (v.1 * v.1 + v.2 * v.2)) (some blankImage)))).x =
      some (0, 0, 0) :=
    rotationSearch_const _ (0, 0, 0) 0 FLT_MAX_pos (fun _ => rfl)
  refine ⟨hfew, img_pattern, out, hgen, h1, hmin, ?_, ?_⟩
  · rw [hrun, hmin]
    unfold registration
    simp only [idleCollaborators] at hx ⊢
    rw [hx]
  · unfold scalePoints
    rw [List.getElem?_map, h1]
    norm_num

/-- C12: on the failing input, a NULL image, findCheckerBoard is not a no-op: whatever the
collaborators, the board sizes and the contents of the caller's vector, corners_model has
been cleared (line 179) when the run reaches the use of the NULL image
(img->getMeanVal, line 193). -/
theorem findCheckerBoard_null_image {D : Type} (env : Collaborators F D)
    (norm : Vector2f F → F) (corners_model : List (Vector2f F))
    (checkerBoardSizeX checkerBoardSizeY : Int) :
    findCheckerBoard env norm none corners_model checkerBoardSizeX checkerBoardSizeY =
      Outcome.fault [] :=
  rfl

end MainResultsOrchestrator

end pic
